import Mathlib

/-!
Shallow embedding of the telegram-copilot-bridge MCP server core
(stream framer + RPC dispatcher, `src/mcpServer.ts`, in this snapshot
`src/unnamed/part_003`, second document) and of the session store
(`src/sessionStore.ts`, in this snapshot `src/unnamed/part_006`), together
with proofs settling the frozen claims.

Modelling conventions:
* JavaScript numbers that are used as integers (ids, chat ids, offsets,
  timestamps, lengths) are modelled as `Int`/`Nat`; non-integer floats never
  arise on the analysed paths.
* SQLite result ordering for `ORDER BY created_at DESC` is modelled as the
  total order (created_at descending, id ascending).  This matches the
  engine's observable behaviour for this schema: the covering index
  `idx_session_lookup (chat_id, topic, created_at DESC)` is scanned with the
  rowid (= id) as the trailing ascending tiebreaker, and the temp-sort path
  produces the same order for rows inserted in id order.
* Byte buffers are modelled as `List Nat` of byte values; UTF-8 encoding and
  (lossy) decoding are defined explicitly below.
-/

/-! ## Decimal rendering and parsing (JS `String(n)` / `Number(s)` on integers) -/

/-- The character for a single decimal digit, `d < 10`. -/
def digitChar (d : Nat) : Char := Char.ofNat (48 + d)

/-- The numeric value of a decimal digit character. -/
def charDigit (c : Char) : Nat := c.toNat - 48

/-- Little-endian decimal digits of `n`.  The fuel argument only drives
structural recursion; any fuel ≥ n is enough, and the wrapper below uses
`n` itself. -/
def natDigitsRevF : Nat → Nat → List Nat
  | 0, _ => []
  | _ + 1, 0 => []
  | fuel + 1, n + 1 => (n + 1) % 10 :: natDigitsRevF fuel ((n + 1) / 10)

theorem natDigitsRevF_eq_digits :
    ∀ fuel n, n ≤ fuel → natDigitsRevF fuel n = Nat.digits 10 n := by
  intro fuel
  induction fuel with
  | zero =>
    intro n h
    interval_cases n
    rw [Nat.digits_zero]
    rfl
  | succ fuel ih =>
    intro n h
    match n with
    | 0 =>
      rw [Nat.digits_zero]
      rfl
    | m + 1 =>
      show (m + 1) % 10 :: natDigitsRevF fuel ((m + 1) / 10) = _
      rw [ih ((m + 1) / 10) (by omega), Nat.digits_def' (by norm_num) (Nat.succ_pos m)]

/-- Decimal rendering of a natural number (character list), as JS `String(n)`
produces. -/
def natToDecimalL (n : Nat) : List Char :=
  if n = 0 then ['0'] else ((natDigitsRevF n n).map digitChar).reverse

theorem natToDecimalL_eq (n : Nat) :
    natToDecimalL n = if n = 0 then ['0'] else ((Nat.digits 10 n).map digitChar).reverse := by
  unfold natToDecimalL
  rw [natDigitsRevF_eq_digits n n (le_refl n)]

/-- Decimal rendering of an integer (character list), as JS `String(n)`
produces. -/
def intToDecimalL (i : Int) : List Char :=
  if i < 0 then '-' :: natToDecimalL i.natAbs else natToDecimalL i.natAbs

/-- Decimal rendering of an integer, as JS `String(n)` produces. -/
def intToDecimal (i : Int) : String := String.mk (intToDecimalL i)

/-- Value of a big-endian list of decimal digit characters. -/
def decimalToNatL (l : List Char) : Nat :=
  Nat.ofDigits 10 ((l.map charDigit).reverse)

/-- Models JS `Number(s)` on the canonical decimal strings that the store
writes under the offset key (`String(offset)` for an integer offset); other
inputs never reach this function on the analysed paths. -/
def decimalToIntL (l : List Char) : Int :=
  match l with
  | [] => decimalToNatL []
  | c :: rest => if c = '-' then -(decimalToNatL rest) else decimalToNatL (c :: rest)

/-- Models JS `Number(s)` on canonical decimal integer strings. -/
def decimalToInt (s : String) : Int := decimalToIntL s.toList

theorem charDigit_digitChar {d : Nat} (h : d < 10) : charDigit (digitChar d) = d := by
  interval_cases d <;> decide

theorem digitChar_ne_dash {d : Nat} (h : d < 10) : digitChar d ≠ '-' := by
  interval_cases d <;> decide

theorem decimalToNatL_natToDecimalL (n : Nat) : decimalToNatL (natToDecimalL n) = n := by
  by_cases h0 : n = 0
  · subst h0; decide
  · rw [natToDecimalL_eq]
    unfold decimalToNatL
    rw [if_neg h0, List.map_reverse, List.reverse_reverse, List.map_map]
    have hmap : (Nat.digits 10 n).map (charDigit ∘ digitChar) = Nat.digits 10 n := by
      have h1 : ∀ d ∈ Nat.digits 10 n, (charDigit ∘ digitChar) d = id d := by
        intro d hd
        exact charDigit_digitChar (Nat.digits_lt_base (by norm_num) hd)
      rw [List.map_congr_left h1, List.map_id]
    rw [hmap, Nat.ofDigits_digits]

theorem natToDecimalL_head_ne_dash (n : Nat) :
    ∃ c rest, natToDecimalL n = c :: rest ∧ c ≠ '-' := by
  by_cases h0 : n = 0
  · subst h0; exact ⟨'0', [], rfl, by decide⟩
  · rw [natToDecimalL_eq]
    rw [if_neg h0, ← List.map_reverse]
    have hne : (Nat.digits 10 n).reverse ≠ [] := by
      simpa using Nat.digits_ne_nil_iff_ne_zero.mpr h0
    obtain ⟨d, ds, hds⟩ := List.exists_cons_of_ne_nil hne
    refine ⟨digitChar d, ds.map digitChar, by rw [hds]; rfl, ?_⟩
    have hd10 : d < 10 := by
      have : d ∈ Nat.digits 10 n := by
        have : d ∈ (Nat.digits 10 n).reverse := by rw [hds]; exact List.mem_cons_self _ _
        simpa using this
      exact Nat.digits_lt_base (by norm_num) this
    exact digitChar_ne_dash hd10

theorem decimalToIntL_intToDecimalL (i : Int) : decimalToIntL (intToDecimalL i) = i := by
  unfold intToDecimalL
  by_cases hneg : i < 0
  · rw [if_pos hneg]
    have hred : decimalToIntL ('-' :: natToDecimalL i.natAbs)
        = -(decimalToNatL (natToDecimalL i.natAbs) : Int) := rfl
    rw [hred, decimalToNatL_natToDecimalL]
    omega
  · rw [if_neg hneg]
    obtain ⟨c, rest, hcr, hc⟩ := natToDecimalL_head_ne_dash i.natAbs
    rw [hcr]
    have hred : decimalToIntL (c :: rest)
        = if c = '-' then -(decimalToNatL rest : Int) else (decimalToNatL (c :: rest) : Int) :=
      rfl
    rw [hred, if_neg hc, ← hcr, decimalToNatL_natToDecimalL]
    omega

/-! ## Session store data model (src/sessionStore.ts = src/unnamed/part_006) -/

/-- A row of the `session_messages` table.  `id` is the AUTOINCREMENT rowid. -/
structure SessionRow where
  id : Nat
  chatId : Int
  topic : String
  role : String
  content : String
  agent : String
  createdAt : Int
deriving DecidableEq, Repr

/-- The configuration record built by `loadConfig` (src/config.ts, second
document of src/unnamed/part_003).  Numeric knobs that are not used by the
modelled code paths are kept as plain fields. -/
structure AppConfig where
  telegramBotToken : String
  telegramApiBase : String
  replyMode : String
  pollTimeoutSeconds : Int
  pollIntervalMs : Int
  sessionRetentionDays : Nat
  sessionRetentionMessages : Nat
  dbPath : String
  defaultTopic : String
  defaultAgent : String
  defaultModel : String
  modelCatalogPath : String
  githubRepoUrl : String
deriving DecidableEq, Repr

/-- The SQLite database state owned by one `SessionStore`: the
`session_messages` table (kept in rowid order) plus the `bridge_state`
key-value table (key, value, updated_at). -/
structure SessionDb where
  rows : List SessionRow
  nextId : Nat
  bridge : List (String × String × Int)
deriving DecidableEq, Repr

/-- A freshly created store: empty tables, AUTOINCREMENT starts at 1. -/
def emptyDb : SessionDb := ⟨[], 1, []⟩

/-- Rows of one thread `(chat_id, topic)`, in rowid order
(`WHERE chat_id = ? AND topic = ?`). -/
def threadRows (db : SessionDb) (chatId : Int) (topic : String) : List SessionRow :=
  db.rows.filter (fun r => r.chatId == chatId && r.topic == topic)

/-- `a` is scanned no later than `b` by `ORDER BY created_at DESC` on this
schema: created_at descending, rowid (id) ascending as the engine tiebreak. -/
def descBefore (a b : SessionRow) : Bool :=
  decide (b.createdAt < a.createdAt)
    || (decide (a.createdAt = b.createdAt) && decide (a.id ≤ b.id))

/-- Insert into a list sorted by `descBefore`. -/
def insertDesc (a : SessionRow) : List SessionRow → List SessionRow
  | [] => [a]
  | b :: l => if descBefore a b then a :: b :: l else b :: insertDesc a l

/-- Result order of `ORDER BY created_at DESC` on this schema. -/
def orderByCreatedAtDesc : List SessionRow → List SessionRow
  | [] => []
  | a :: l => insertDesc a (orderByCreatedAtDesc l)

/-- Lower-case an ASCII letter; other characters unchanged (SQLite `LIKE`
case folding applies to ASCII `A`-`Z` only). -/
def asciiLower (c : Char) : Char :=
  if 'A' ≤ c ∧ c ≤ 'Z' then Char.ofNat (c.toNat + 32) else c

/-- SQLite `LIKE` matching: `%` matches any character sequence, `_` any one
character, other characters compare ASCII-case-insensitively.  The fuel
argument only drives structural recursion; every recursive call shrinks
`ps.length + cs.length`, so the wrapper below always supplies enough. -/
def likeMatchF : Nat → List Char → List Char → Bool
  | 0, _, _ => false
  | _ + 1, [], [] => true
  | _ + 1, [], _ :: _ => false
  | fuel + 1, '%' :: ps, cs =>
      likeMatchF fuel ps cs
        || (match cs with
            | [] => false
            | _ :: cs' => likeMatchF fuel ('%' :: ps) cs')
  | _ + 1, '_' :: _, [] => false
  | fuel + 1, '_' :: ps, _ :: cs => likeMatchF fuel ps cs
  | _ + 1, _ :: _, [] => false
  | fuel + 1, p :: ps, c :: cs =>
      asciiLower p == asciiLower c && likeMatchF fuel ps cs

/-- `text LIKE pattern` with SQLite's default (ASCII-case-insensitive)
semantics. -/
def likeMatch (pattern text : String) : Bool :=
  likeMatchF (pattern.toList.length + text.toList.length + 1) pattern.toList text.toList

/-- Lookup in the `bridge_state` table (unique `key` column). -/
def bridgeGet (bridge : List (String × String × Int)) (key : String) :
    Option (String × Int) :=
  (bridge.find? (fun e => e.1 == key)).map (fun e => e.2)

/-- `INSERT ... ON CONFLICT(key) DO UPDATE` on `bridge_state`. -/
def bridgeUpsert (bridge : List (String × String × Int)) (key value : String)
    (now : Int) : List (String × String × Int) :=
  if bridge.any (fun e => e.1 == key) then
    bridge.map (fun e => if e.1 == key then (key, value, now) else e)
  else bridge ++ [(key, value, now)]

namespace SessionStore

/-- `pruneThread`: delete every row of the thread beyond the newest
`sessionRetentionMessages` in `ORDER BY created_at DESC` scan order
(`LIMIT -1 OFFSET keep`). -/
def pruneThread (cfg : AppConfig) (db : SessionDb) (chatId : Int) (topic : String) :
    SessionDb :=
  let keep := cfg.sessionRetentionMessages
  let doomed := ((orderByCreatedAtDesc (threadRows db chatId topic)).drop keep).map (·.id)
  { db with rows := db.rows.filter (fun r => !(doomed.contains r.id)) }

/-- `pruneByTime`: delete every row older than the retention horizon. -/
def pruneByTime (cfg : AppConfig) (db : SessionDb) (now : Int) : SessionDb :=
  let cutoff := now - (cfg.sessionRetentionDays : Int) * 86400000
  { db with rows := db.rows.filter (fun r => !(decide (r.createdAt < cutoff))) }

/-- `append`: insert the row with the next rowid and the current timestamp,
then run both retention sweeps; returns the stored message. -/
def append (cfg : AppConfig) (db : SessionDb) (chatId : Int)
    (topic role content agent : String) (now : Int) : SessionDb × SessionRow :=
  let row : SessionRow := ⟨db.nextId, chatId, topic, role, content, agent, now⟩
  let db1 : SessionDb := { db with rows := db.rows ++ [row], nextId := db.nextId + 1 }
  (pruneByTime cfg (pruneThread cfg db1 chatId topic) now, row)

/-- `getHistory`: newest `limit` rows of the thread in scan order, reversed
into ascending order (`[...rows].reverse()`). -/
def getHistory (cfg : AppConfig) (db : SessionDb) (chatId : Int)
    (topicOpt : Option String) (limitOpt : Option Nat) : List SessionRow :=
  let lim := limitOpt.getD cfg.sessionRetentionMessages
  let topic := topicOpt.getD cfg.defaultTopic
  ((orderByCreatedAtDesc (threadRows db chatId topic)).take lim).reverse

/-- `search`: rows of the chat (any topic) whose content matches
`'%' || keyword || '%'`, newest first. -/
def search (cfg : AppConfig) (db : SessionDb) (chatId : Int) (keyword : String)
    (limitOpt : Option Nat) : List SessionRow :=
  if keyword == "" then []
  else
    let lim := limitOpt.getD cfg.sessionRetentionMessages
    ((orderByCreatedAtDesc (db.rows.filter
      (fun r => r.chatId == chatId && likeMatch ("%" ++ keyword ++ "%") r.content))).take lim)

/-- `getCurrentProfile`: topic/agent of the newest row of the thread, or the
defaults. -/
def getCurrentProfile (cfg : AppConfig) (db : SessionDb) (chatId : Int)
    (topic : String) : String × String :=
  match (orderByCreatedAtDesc (threadRows db chatId topic)).head? with
  | some r => (r.topic, r.agent)
  | none => (topic, cfg.defaultAgent)

/-- Collapse runs of JS whitespace to single spaces (`replace(/\s+/g, ' ')`).
Only the ASCII whitespace characters are modelled; the summarised contents on
the analysed paths contain no exotic Unicode spaces. -/
def collapseWs (l : List Char) : List Char :=
  match l with
  | [] => []
  | c :: rest =>
      if c = ' ' ∨ c = '\t' ∨ c = '\n' ∨ c = '\r' then
        match collapseWs rest with
        | ' ' :: tail => ' ' :: tail
        | tail => ' ' :: tail
      else c :: collapseWs rest

/-- `summarize`: role-prefixed, whitespace-collapsed, 180-character-truncated
lines for the trailing six messages. -/
def summarize (messages : List SessionRow) : String :=
  if messages.length = 0 then "No previous context."
  else
    String.intercalate "\n"
      ((messages.drop (messages.length - 6)).map
        (fun m => m.role ++ ": " ++ String.mk ((collapseWs m.content.toList).take 180)))

/-- `continueContext`: history window, agent of the newest message (or the
default), and the summary. -/
def continueContext (cfg : AppConfig) (db : SessionDb) (chatId : Int)
    (topic : String) (lim : Nat) :
    List SessionRow × String × String :=
  let messages := getHistory cfg db chatId (some topic) (some lim)
  let agent := match messages.getLast? with
    | some m => m.agent
    | none => cfg.defaultAgent
  (messages, agent, summarize messages)

/-- One row of `listThreads` output. -/
structure ThreadInfo where
  chatId : Int
  topic : String
  messageCount : Nat
  updatedAt : Int
deriving DecidableEq, Repr

/-- `listThreads`: per-thread count and newest timestamp, most recent thread
first.  Group keys are produced in index order (chat_id, topic ascending) and
then sorted by `updatedAt DESC`; ties keep that scan order, matching the
engine's temp-sort behaviour on this query. -/
def listThreads (db : SessionDb) (chatIdOpt : Option Int) : List ThreadInfo :=
  let rows : List SessionRow := match chatIdOpt with
    | some c => db.rows.filter (fun r => r.chatId == c)
    | none => db.rows
  let keys : List (Int × String) := (rows.map (fun r => (r.chatId, r.topic))).dedup
  let keysSorted := keys.mergeSort
    (fun a b => decide (a.1 < b.1) || (decide (a.1 = b.1) && decide (a.2 ≤ b.2)))
  let infos := keysSorted.map (fun (k : Int × String) =>
    let grp := rows.filter (fun r => r.chatId == k.1 && r.topic == k.2)
    ThreadInfo.mk k.1 k.2 grp.length ((grp.map (·.createdAt)).foldl max 0))
  infos.mergeSort (fun a b => decide (b.updatedAt ≤ a.updatedAt))

/-- `getOffset`: value stored under the `telegram_offset` key, or 0. -/
def getOffset (db : SessionDb) : Int :=
  match bridgeGet db.bridge "telegram_offset" with
  | none => 0
  | some (v, _) => decimalToInt v

/-- `setOffset`: upsert `String(offset)` under the `telegram_offset` key;
returns the offset. -/
def setOffset (db : SessionDb) (offset : Int) (now : Int) : SessionDb × Int :=
  ({ db with bridge := bridgeUpsert db.bridge "telegram_offset" (intToDecimal offset) now },
    offset)

/-- Modelled from the spec: the per-thread selected-model slot.  The
`SessionStore` version in `src/unnamed/part_006` predates
`getSelectedModel`/`setSelectedModel` (the server in `src/unnamed/part_003`
calls them, but their implementation is not under `src/`); the spec describes
them as durable per-thread key-value state with the configured default model
as fallback. -/
def getSelectedModel (cfg : AppConfig) (db : SessionDb) (chatId : Int)
    (topic : String) : String :=
  match bridgeGet db.bridge ("selected_model:" ++ intToDecimal chatId ++ ":" ++ topic) with
  | none => cfg.defaultModel
  | some (v, _) => v

/-- Modelled from the spec: store the per-thread selected model. -/
def setSelectedModel (db : SessionDb) (chatId : Int) (topic : String)
    (modelId : String) (now : Int) : SessionDb × String :=
  let key := "selected_model:" ++ intToDecimal chatId ++ ":" ++ topic
  ({ db with bridge := bridgeUpsert db.bridge key modelId now }, modelId)

end SessionStore

/-! ## Ordering lemmas for the `ORDER BY created_at DESC` model -/

theorem descBefore_total (a b : SessionRow) :
    descBefore a b = true ∨ descBefore b a = true := by
  simp only [descBefore, Bool.or_eq_true, Bool.and_eq_true, decide_eq_true_eq]
  omega

theorem descBefore_trans {a b c : SessionRow} (hab : descBefore a b = true)
    (hbc : descBefore b c = true) : descBefore a c = true := by
  simp only [descBefore, Bool.or_eq_true, Bool.and_eq_true, decide_eq_true_eq] at *
  omega

theorem mem_insertDesc {x a : SessionRow} {l : List SessionRow} :
    x ∈ insertDesc a l ↔ x = a ∨ x ∈ l := by
  induction l with
  | nil => simp [insertDesc]
  | cons b l ih =>
    simp only [insertDesc]
    by_cases hab : descBefore a b = true
    · rw [if_pos hab]
      simp [or_comm, or_left_comm]
    · rw [if_neg hab]
      simp only [List.mem_cons, ih]
      tauto

theorem perm_insertDesc (a : SessionRow) (l : List SessionRow) :
    List.Perm (insertDesc a l) (a :: l) := by
  induction l with
  | nil => exact List.Perm.refl _
  | cons b l ih =>
    simp only [insertDesc]
    by_cases hab : descBefore a b = true
    · rw [if_pos hab]
    · rw [if_neg hab]
      exact (ih.cons b).trans (List.Perm.swap a b l)

theorem pairwise_insertDesc {a : SessionRow} {l : List SessionRow}
    (h : l.Pairwise (fun x y => descBefore x y = true)) :
    (insertDesc a l).Pairwise (fun x y => descBefore x y = true) := by
  induction l with
  | nil => simp [insertDesc]
  | cons b l ih =>
    rcases List.pairwise_cons.mp h with ⟨hb, hl⟩
    simp only [insertDesc]
    by_cases hab : descBefore a b = true
    · rw [if_pos hab]
      refine List.pairwise_cons.mpr ⟨?_, h⟩
      intro x hx
      rcases List.mem_cons.mp hx with rfl | hx
      · exact hab
      · exact descBefore_trans hab (hb x hx)
    · rw [if_neg hab]
      have hba : descBefore b a = true := (descBefore_total a b).resolve_left hab
      refine List.pairwise_cons.mpr ⟨?_, ih hl⟩
      intro x hx
      rcases mem_insertDesc.mp hx with rfl | hx
      · exact hba
      · exact hb x hx

theorem perm_orderByCreatedAtDesc (l : List SessionRow) :
    List.Perm (orderByCreatedAtDesc l) l := by
  induction l with
  | nil => exact List.Perm.refl _
  | cons a l ih =>
    exact (perm_insertDesc a (orderByCreatedAtDesc l)).trans (ih.cons a)

theorem pairwise_orderByCreatedAtDesc (l : List SessionRow) :
    (orderByCreatedAtDesc l).Pairwise (fun x y => descBefore x y = true) := by
  induction l with
  | nil => simp [orderByCreatedAtDesc]
  | cons a l ih => exact pairwise_insertDesc ih

theorem insertDesc_eq_append {a : SessionRow} {l : List SessionRow}
    (h : ∀ b ∈ l, descBefore a b = false) : insertDesc a l = l ++ [a] := by
  induction l with
  | nil => rfl
  | cons b l ih =>
    simp only [insertDesc]
    rw [if_neg (by simp [h b (List.mem_cons_self b l)]), ih]
    · rfl
    · intro x hx
      exact h x (List.mem_cons_of_mem b hx)

/-- On rows whose timestamps strictly increase in list order, the
`created_at DESC` scan is exactly the reversed list. -/
theorem orderByCreatedAtDesc_strictInc {l : List SessionRow}
    (h : l.Pairwise (fun x y => x.createdAt < y.createdAt)) :
    orderByCreatedAtDesc l = l.reverse := by
  induction l with
  | nil => rfl
  | cons a l ih =>
    rcases List.pairwise_cons.mp h with ⟨ha, hl⟩
    simp only [orderByCreatedAtDesc]
    rw [ih hl, insertDesc_eq_append, List.reverse_cons]
    intro b hb
    have hb' : b ∈ l := List.mem_reverse.mp hb
    have := ha b hb'
    simp only [descBefore, Bool.or_eq_false_iff, Bool.and_eq_false_iff,
      decide_eq_false_iff_not]
    omega

/-! ## C10: offset cursor -/

theorem find?_upsert_map (key v : String) (now : Int)
    (bridge : List (String × String × Int))
    (h : bridge.any (fun e => e.1 == key) = true) :
    ((bridge.map (fun e => if e.1 == key then (key, v, now) else e)).find?
      (fun e => e.1 == key)) = some (key, v, now) := by
  induction bridge with
  | nil => simp at h
  | cons e rest ih =>
    simp only [List.map_cons]
    by_cases he : (e.1 == key) = true
    · rw [if_pos he, List.find?_cons_of_pos _ (by simp)]
    · rw [if_neg he, List.find?_cons_of_neg _ (by simpa using he)]
      apply ih
      simpa [he] using h

theorem find?_append_singleton (key : String)
    (bridge : List (String × String × Int)) (x : String × String × Int)
    (h : bridge.any (fun e => e.1 == key) = false)
    (hx : (x.1 == key) = true) :
    ((bridge ++ [x]).find? (fun e => e.1 == key)) = some x := by
  induction bridge with
  | nil =>
    rw [List.nil_append]
    exact List.find?_cons_of_pos _ hx
  | cons e rest ih =>
    simp only [List.any_cons, Bool.or_eq_false_iff] at h
    rw [List.cons_append, List.find?_cons_of_neg _ (by simp [h.1])]
    exact ih h.2

theorem bridgeGet_bridgeUpsert_self (bridge : List (String × String × Int))
    (key v : String) (now : Int) :
    bridgeGet (bridgeUpsert bridge key v now) key = some (v, now) := by
  unfold bridgeUpsert bridgeGet
  by_cases hany : bridge.any (fun e => e.1 == key) = true
  · rw [if_pos hany, find?_upsert_map key v now bridge hany]
    rfl
  · rw [if_neg hany,
      find?_append_singleton key bridge (key, v, now)
        (Bool.eq_false_iff.mpr hany) (by simp)]
    rfl

/-- C10: on a fresh store `getOffset` returns 0; after `setOffset n` (on any
store state) `getOffset` returns `n` — the single offset key is
last-write-wins. -/
theorem C10_offset_roundtrip (db : SessionDb) (n now : Int) :
    SessionStore.getOffset emptyDb = 0 ∧
    SessionStore.getOffset (SessionStore.setOffset db n now).1 = n := by
  refine ⟨rfl, ?_⟩
  unfold SessionStore.setOffset SessionStore.getOffset
  rw [bridgeGet_bridgeUpsert_self]
  exact decimalToIntL_intToDecimalL n

/-! ## C6: per-thread retention cap -/

/-- One `session.append` call against a thread: the message fields plus the
`Date.now()` timestamp observed by that call. -/
structure AppendInput where
  role : String
  content : String
  agent : String
  time : Int
deriving DecidableEq, Repr

/-- A sequence of `session.append` calls against one thread, in order. -/
def appendRun (cfg : AppConfig) (chatId : Int) (topic : String) :
    List AppendInput → SessionDb → SessionDb
  | [], db => db
  | inp :: rest, db =>
      appendRun cfg chatId topic rest
        (SessionStore.append cfg db chatId topic inp.role inp.content inp.agent inp.time).1

/-- The row stored for one append call, given its assigned rowid. -/
def mkRow (chatId : Int) (topic : String) (id : Nat) (inp : AppendInput) : SessionRow :=
  ⟨id, chatId, topic, inp.role, inp.content, inp.agent, inp.time⟩

/-- The rows stored for a sequence of append calls, rowids from `startId`. -/
def mkRows (chatId : Int) (topic : String) : Nat → List AppendInput → List SessionRow
  | _, [] => []
  | startId, inp :: rest =>
      mkRow chatId topic startId inp :: mkRows chatId topic (startId + 1) rest

/-- All append timestamps lie within one retention horizon of each other, so
the time-based sweep deletes nothing during the run. -/
def TimeWindowOk (times : List Int) (horizon : Int) : Prop :=
  ∀ t ∈ times, ∀ t' ∈ times, t - horizon ≤ t'

theorem mkRows_append (c : Int) (tp : String) (xs ys : List AppendInput) :
    ∀ s, mkRows c tp s (xs ++ ys) = mkRows c tp s xs ++ mkRows c tp (s + xs.length) ys := by
  induction xs with
  | nil => intro s; simp [mkRows]
  | cons x xs ih =>
    intro s
    have harith : s + (x :: xs).length = s + 1 + xs.length := by
      simp only [List.length_cons]; omega
    calc mkRows c tp s ((x :: xs) ++ ys)
        = mkRow c tp s x :: mkRows c tp (s + 1) (xs ++ ys) := rfl
      _ = mkRow c tp s x
          :: (mkRows c tp (s + 1) xs ++ mkRows c tp (s + 1 + xs.length) ys) := by
          rw [ih (s + 1)]
      _ = mkRows c tp s (x :: xs) ++ mkRows c tp (s + (x :: xs).length) ys := by
          rw [harith]; rfl

theorem length_mkRows (c : Int) (tp : String) (l : List AppendInput) :
    ∀ s, (mkRows c tp s l).length = l.length := by
  induction l with
  | nil => intro s; rfl
  | cons x xs ih => intro s; simp [mkRows, ih]

theorem mem_mkRows {c : Int} {tp : String} {r : SessionRow} {l : List AppendInput} :
    ∀ {s}, r ∈ mkRows c tp s l →
      r.chatId = c ∧ r.topic = tp ∧ s ≤ r.id ∧ r.createdAt ∈ l.map (·.time) := by
  induction l with
  | nil => intro s h; simp [mkRows] at h
  | cons x xs ih =>
    intro s h
    rcases List.mem_cons.mp h with rfl | h
    · refine ⟨rfl, rfl, le_refl _, ?_⟩
      simp [mkRow]
    · obtain ⟨h1, h2, h3, h4⟩ := ih h
      exact ⟨h1, h2, by omega, by simp [h4]⟩

theorem filter_mkRows (c : Int) (tp : String) (l : List AppendInput) (s : Nat) :
    (mkRows c tp s l).filter (fun r => r.chatId == c && r.topic == tp)
      = mkRows c tp s l := by
  apply List.filter_eq_self.mpr
  intro r hr
  obtain ⟨h1, h2, -, -⟩ := mem_mkRows hr
  simp [h1, h2]

theorem pairwise_mkRows {c : Int} {tp : String} {l : List AppendInput}
    (h : (l.map (·.time)).Pairwise (· < ·)) :
    ∀ s, (mkRows c tp s l).Pairwise (fun x y => x.createdAt < y.createdAt) := by
  induction l with
  | nil => intro s; simp [mkRows]
  | cons x xs ih =>
    intro s
    simp only [List.map_cons, List.pairwise_cons] at h
    refine List.pairwise_cons.mpr ⟨?_, ih h.2 (s + 1)⟩
    intro y hy
    obtain ⟨-, -, -, h4⟩ := mem_mkRows hy
    exact h.1 y.createdAt h4

theorem pruneThread_of_small (cfg : AppConfig) (db : SessionDb) (c : Int) (tp : String)
    (h : (threadRows db c tp).length ≤ cfg.sessionRetentionMessages) :
    SessionStore.pruneThread cfg db c tp = db := by
  have hlen : (orderByCreatedAtDesc (threadRows db c tp)).length
      = (threadRows db c tp).length :=
    (perm_orderByCreatedAtDesc (threadRows db c tp)).length_eq
  have hdrop : (orderByCreatedAtDesc (threadRows db c tp)).drop
      cfg.sessionRetentionMessages = [] := by
    apply List.drop_eq_nil_of_le
    omega
  simp only [SessionStore.pruneThread, hdrop, List.map_nil]
  simp

theorem pruneByTime_of_window (cfg : AppConfig) (db : SessionDb) (now : Int)
    (h : ∀ r ∈ db.rows, ¬(r.createdAt < now - (cfg.sessionRetentionDays : Int) * 86400000)) :
    SessionStore.pruneByTime cfg db now = db := by
  have hfix : db.rows.filter
      (fun r => !(decide (r.createdAt < now - (cfg.sessionRetentionDays : Int) * 86400000)))
      = db.rows := by
    apply List.filter_eq_self.mpr
    intro r hr
    simpa using h r hr
  simp only [SessionStore.pruneByTime, hfix]

theorem appendRun_append (cfg : AppConfig) (c : Int) (tp : String)
    (xs ys : List AppendInput) :
    ∀ db, appendRun cfg c tp (xs ++ ys) db = appendRun cfg c tp ys (appendRun cfg c tp xs db) := by
  induction xs with
  | nil => intro db; rfl
  | cons x xs ih =>
    intro db
    exact ih _

theorem appendRun_no_evict (cfg : AppConfig) (c : Int) (tp : String)
    (br : List (String × String × Int)) :
    ∀ (inputs pre : List AppendInput),
      pre.length + inputs.length ≤ cfg.sessionRetentionMessages →
      TimeWindowOk ((pre ++ inputs).map (·.time))
        ((cfg.sessionRetentionDays : Int) * 86400000) →
      appendRun cfg c tp inputs ⟨mkRows c tp 1 pre, pre.length + 1, br⟩
        = ⟨mkRows c tp 1 (pre ++ inputs), (pre ++ inputs).length + 1, br⟩ := by
  intro inputs
  induction inputs with
  | nil =>
    intro pre _ _
    simp [appendRun]
  | cons inp rest ih =>
    intro pre hlen hwin
    have hrow : (⟨pre.length + 1, c, tp, inp.role, inp.content, inp.agent, inp.time⟩ : SessionRow)
        = mkRow c tp (pre.length + 1) inp := rfl
    have hrows1 : mkRows c tp 1 pre ++ [mkRow c tp (pre.length + 1) inp]
        = mkRows c tp 1 (pre ++ [inp]) := by
      rw [mkRows_append]
      have : 1 + pre.length = pre.length + 1 := by omega
      rw [this]
      rfl
    have hthread1 : threadRows ⟨mkRows c tp 1 (pre ++ [inp]), pre.length + 1 + 1, br⟩ c tp
        = mkRows c tp 1 (pre ++ [inp]) := by
      unfold threadRows
      exact filter_mkRows c tp (pre ++ [inp]) 1
    have hsmall : (threadRows ⟨mkRows c tp 1 (pre ++ [inp]), pre.length + 1 + 1, br⟩ c tp).length
        ≤ cfg.sessionRetentionMessages := by
      rw [hthread1, length_mkRows]
      simp only [List.length_append, List.length_cons, List.length_nil] at hlen ⊢
      omega
    have hwindow : ∀ r ∈ (⟨mkRows c tp 1 (pre ++ [inp]), pre.length + 1 + 1, br⟩ : SessionDb).rows,
        ¬(r.createdAt < inp.time - (cfg.sessionRetentionDays : Int) * 86400000) := by
      intro r hr
      obtain ⟨-, -, -, h4⟩ := mem_mkRows hr
      have htmem : r.createdAt ∈ (pre ++ inp :: rest).map (·.time) := by
        simp only [List.map_append] at h4 ⊢
        simp only [List.map_cons]
        rcases List.mem_append.mp h4 with h | h
        · exact List.mem_append.mpr (Or.inl h)
        · simp only [List.map_cons, List.map_nil, List.mem_singleton] at h
          exact List.mem_append.mpr (Or.inr (by simp [h]))
      have hinp : inp.time ∈ (pre ++ inp :: rest).map (·.time) := by
        simp
      have := hwin inp.time hinp r.createdAt htmem
      omega
    show appendRun cfg c tp rest
        (SessionStore.append cfg ⟨mkRows c tp 1 pre, pre.length + 1, br⟩ c tp
          inp.role inp.content inp.agent inp.time).1 = _
    unfold SessionStore.append
    simp only [hrow, hrows1]
    rw [pruneThread_of_small cfg _ c tp hsmall, pruneByTime_of_window cfg _ _ hwindow]
    have hres := ih (pre ++ [inp])
      (by simp only [List.length_append, List.length_cons, List.length_nil] at hlen ⊢; omega)
      (by
        have : (pre ++ [inp]) ++ rest = pre ++ inp :: rest := by simp
        rw [this]
        exact hwin)
    have hlen2 : (pre ++ [inp]).length + 1 = pre.length + 1 + 1 := by simp
    rw [← hlen2]
    rw [hres]
    have : (pre ++ [inp]) ++ rest = pre ++ inp :: rest := by simp
    rw [this]

theorem timeWindowOk_subset {times sub : List Int} {horizon : Int}
    (h : TimeWindowOk times horizon) (hsub : ∀ t ∈ sub, t ∈ times) :
    TimeWindowOk sub horizon :=
  fun t ht t' ht' => h t (hsub t ht) t' (hsub t' ht')

/-- C6 (amended): appending `cap + 1` messages to one thread whose append
timestamps strictly increase (and stay within the time-retention horizon)
leaves exactly `cap` messages stored for the thread, namely all but the
first (oldest) one: the single evicted message is the oldest. -/
theorem C6_cap_eviction (cfg : AppConfig) (c : Int) (tp : String)
    (first : AppendInput) (rest : List AppendInput)
    (hlen : rest.length = cfg.sessionRetentionMessages)
    (hinc : ((first :: rest).map (·.time)).Pairwise (· < ·))
    (hwin : TimeWindowOk ((first :: rest).map (·.time))
      ((cfg.sessionRetentionDays : Int) * 86400000)) :
    threadRows (appendRun cfg c tp (first :: rest) emptyDb) c tp = mkRows c tp 2 rest
      ∧ (threadRows (appendRun cfg c tp (first :: rest) emptyDb) c tp).length
        = cfg.sessionRetentionMessages := by
  have hne : first :: rest ≠ [] := List.cons_ne_nil _ _
  have hconcat : (first :: rest).dropLast ++ [(first :: rest).getLast hne] = first :: rest :=
    List.dropLast_append_getLast hne
  set init := (first :: rest).dropLast with hinit
  set lastI := (first :: rest).getLast hne with hlast
  have hinitlen : init.length = cfg.sessionRetentionMessages := by
    rw [hinit, List.length_dropLast]
    simp [hlen]
  have hsplit : appendRun cfg c tp (first :: rest) emptyDb
      = appendRun cfg c tp [lastI] (appendRun cfg c tp init emptyDb) := by
    rw [← hconcat, appendRun_append]
  have hsubmem : ∀ t ∈ init.map (·.time), t ∈ (first :: rest).map (·.time) := by
    intro t ht
    rcases List.mem_map.mp ht with ⟨x, hx, rfl⟩
    exact List.mem_map.mpr ⟨x, (List.dropLast_sublist _).subset hx, rfl⟩
  have hphaseA : appendRun cfg c tp init emptyDb
      = ⟨mkRows c tp 1 init, init.length + 1, []⟩ := by
    have h0 : emptyDb = ⟨mkRows c tp 1 [], ([] : List AppendInput).length + 1, []⟩ := rfl
    rw [h0, appendRun_no_evict cfg c tp [] init []
      (by simp [hinitlen]) (timeWindowOk_subset hwin (by simpa using hsubmem))]
    simp
  have hrows1 : mkRows c tp 1 init ++ [mkRow c tp (init.length + 1) lastI]
      = mkRow c tp 1 first :: mkRows c tp 2 rest := by
    have := mkRows_append c tp init [lastI] 1
    rw [hconcat] at this
    have harith : 1 + init.length = init.length + 1 := by omega
    rw [harith] at this
    have hsingle : mkRows c tp (init.length + 1) [lastI] = [mkRow c tp (init.length + 1) lastI] :=
      rfl
    rw [hsingle] at this
    exact this.symm
  have hlastmem : lastI.time ∈ (first :: rest).map (·.time) := by
    refine List.mem_map.mpr ⟨lastI, ?_, rfl⟩
    rw [hlast]
    exact List.getLast_mem hne
  have hsorted : (mkRow c tp 1 first :: mkRows c tp 2 rest).Pairwise
      (fun x y => x.createdAt < y.createdAt) := by
    have := @pairwise_mkRows c tp (first :: rest) hinc 1
    simpa [mkRows] using this
  have hrestlen : ((mkRows c tp 2 rest).reverse).length = cfg.sessionRetentionMessages := by
    rw [List.length_reverse, length_mkRows, hlen]
  have hfilter : (mkRow c tp 1 first :: mkRows c tp 2 rest).filter
      (fun r => !([(mkRow c tp 1 first).id].contains r.id)) = mkRows c tp 2 rest := by
    rw [List.filter_cons_of_neg (by simp [mkRow])]
    apply List.filter_eq_self.mpr
    intro r hr
    obtain ⟨-, -, hid, -⟩ := mem_mkRows hr
    simp only [List.contains_cons, List.contains_nil, Bool.or_false, Bool.not_eq_true']
    simp only [mkRow]
    have : r.id ≠ 1 := by omega
    simpa using this
  have hthread1 : threadRows ⟨mkRow c tp 1 first :: mkRows c tp 2 rest,
      init.length + 1 + 1, []⟩ c tp = mkRow c tp 1 first :: mkRows c tp 2 rest := by
    unfold threadRows
    have := filter_mkRows c tp (first :: rest) 1
    simpa [mkRows] using this
  have hprune : SessionStore.pruneThread cfg
      ⟨mkRow c tp 1 first :: mkRows c tp 2 rest, init.length + 1 + 1, []⟩ c tp
      = ⟨mkRows c tp 2 rest, init.length + 1 + 1, []⟩ := by
    simp only [SessionStore.pruneThread, hthread1]
    rw [orderByCreatedAtDesc_strictInc hsorted, List.reverse_cons, ← hrestlen,
      List.drop_left]
    have hmap : ([mkRow c tp 1 first]).map (fun x => x.id) = [(mkRow c tp 1 first).id] := rfl
    rw [hmap, hfilter]
  have hfinal : appendRun cfg c tp [lastI] ⟨mkRows c tp 1 init, init.length + 1, []⟩
      = ⟨mkRows c tp 2 rest, init.length + 1 + 1, []⟩ := by
    show SessionStore.pruneByTime cfg (SessionStore.pruneThread cfg
      ⟨mkRows c tp 1 init ++ [mkRow c tp (init.length + 1) lastI], init.length + 1 + 1, []⟩
      c tp) lastI.time = _
    rw [hrows1, hprune]
    apply pruneByTime_of_window
    intro r hr
    obtain ⟨-, -, -, h4⟩ := mem_mkRows hr
    have hrt : r.createdAt ∈ (first :: rest).map (·.time) := by
      simp only [List.map_cons, List.mem_cons]
      exact Or.inr h4
    have := hwin lastI.time hlastmem r.createdAt hrt
    omega
  rw [hsplit, hphaseA, hfinal]
  have hthreadF : threadRows ⟨mkRows c tp 2 rest, init.length + 1 + 1, []⟩ c tp
      = mkRows c tp 2 rest := filter_mkRows c tp rest 2
  exact ⟨hthreadF, by rw [hthreadF, length_mkRows, hlen]⟩

/-- A concrete configuration used by witness evaluations. -/
def demoConfig (cap : Nat) : AppConfig :=
  ⟨"token", "https://api.telegram.org", "manual", 20, 1200, 30, cap,
    "./data/sessions.sqlite", "default", "default", "gpt-5.3-codex",
    "./config/models.catalog.json",
    "https://github.com/duncanhovsky/telegram-copilot-bridge-skill"⟩

theorem C6_cap_eviction_witness :
    threadRows (appendRun (demoConfig 2) 7 "work"
        [⟨"user", "m1", "a", 100⟩, ⟨"user", "m2", "a", 200⟩, ⟨"user", "m3", "a", 300⟩]
        emptyDb) 7 "work"
      = mkRows 7 "work" 2 [⟨"user", "m2", "a", 200⟩, ⟨"user", "m3", "a", 300⟩]
    ∧ (threadRows (appendRun (demoConfig 2) 7 "work"
        [⟨"user", "m1", "a", 100⟩, ⟨"user", "m2", "a", 200⟩, ⟨"user", "m3", "a", 300⟩]
        emptyDb) 7 "work").length = (demoConfig 2).sessionRetentionMessages :=
  C6_cap_eviction (demoConfig 2) 7 "work" ⟨"user", "m1", "a", 100⟩
    [⟨"user", "m2", "a", 200⟩, ⟨"user", "m3", "a", 300⟩]
    (by decide) (by decide) (by unfold TimeWindowOk; decide)

/-- C6 counterexample: with cap = 1 and two appends carrying the same
`Date.now()` millisecond (t = 100 for both), the second (cap + 1)-st append
leaves exactly one message, but the surviving message is the FIRST (oldest)
one — the evicted message is the newest, not the oldest, because the
`created_at DESC` scan breaks the timestamp tie by ascending rowid. -/
theorem C6_counterexample :
    ((appendRun (demoConfig 1) 1 "default"
        [⟨"user", "first", "a", 100⟩, ⟨"user", "second", "a", 100⟩] emptyDb).rows.map
      (·.content) = ["first"])
    ∧ ("first" : String) ≠ "second" := by
  exact ⟨by decide, by decide⟩

/-! ## C7: read bounds and ordering -/

theorem sorted_createdAt_desc (l : List SessionRow) :
    (orderByCreatedAtDesc l).Pairwise (fun a b => b.createdAt ≤ a.createdAt) := by
  apply (pairwise_orderByCreatedAtDesc l).imp
  intro a b h
  simp only [descBefore, Bool.or_eq_true, Bool.and_eq_true, decide_eq_true_eq] at h
  omega

theorem filter_filter_comm (p q : SessionRow → Bool) (l : List SessionRow) :
    (l.filter p).filter q = (l.filter q).filter p := by
  induction l with
  | nil => rfl
  | cons a l ih =>
    by_cases hp : p a = true <;> by_cases hq : q a = true <;>
      simp [List.filter_cons, hp, hq, ih]

theorem pruneThread_thread_cap (cfg : AppConfig) (db : SessionDb) (c : Int) (tp : String) :
    (threadRows (SessionStore.pruneThread cfg db c tp) c tp).length
      ≤ cfg.sessionRetentionMessages := by
  have hq : threadRows (SessionStore.pruneThread cfg db c tp) c tp
      = (threadRows db c tp).filter
        (fun r => !((((orderByCreatedAtDesc (threadRows db c tp)).drop
          cfg.sessionRetentionMessages).map (·.id)).contains r.id)) := by
    simp only [SessionStore.pruneThread, threadRows]
    exact filter_filter_comm _ _ db.rows
  rw [hq]
  set doomedSrc := (orderByCreatedAtDesc (threadRows db c tp)).drop
    cfg.sessionRetentionMessages with hdoomed
  have hperm : ((orderByCreatedAtDesc (threadRows db c tp)).filter
      (fun r => !((doomedSrc.map (·.id)).contains r.id))).length
      = ((threadRows db c tp).filter
        (fun r => !((doomedSrc.map (·.id)).contains r.id))).length :=
    ((perm_orderByCreatedAtDesc (threadRows db c tp)).filter _).length_eq
  rw [← hperm]
  have hsplitlist : orderByCreatedAtDesc (threadRows db c tp)
      = (orderByCreatedAtDesc (threadRows db c tp)).take cfg.sessionRetentionMessages
        ++ doomedSrc := (List.take_append_drop _ _).symm
  rw [hsplitlist, List.filter_append]
  have hdropnil : doomedSrc.filter
      (fun r => !((doomedSrc.map (·.id)).contains r.id)) = [] := by
    apply List.filter_eq_nil_iff.mpr
    intro r hr
    have hmem : r.id ∈ doomedSrc.map (·.id) := List.mem_map.mpr ⟨r, hr, rfl⟩
    simp only [Bool.not_eq_true, Bool.not_eq_false]
    rw [List.contains_iff_exists_mem_beq.mpr ⟨r.id, hmem, beq_self_eq_true r.id⟩]
    rfl
  rw [hdropnil, List.append_nil]
  calc (((orderByCreatedAtDesc (threadRows db c tp)).take
        cfg.sessionRetentionMessages).filter _).length
      ≤ ((orderByCreatedAtDesc (threadRows db c tp)).take
        cfg.sessionRetentionMessages).length := List.length_filter_le _ _
    _ ≤ cfg.sessionRetentionMessages := List.length_take_le _ _

theorem threadRows_filter_length_le (rows : List SessionRow) (p : SessionRow → Bool)
    (n n' : Nat) (br br' : List (String × String × Int)) (c : Int) (tp : String) :
    (threadRows ⟨rows.filter p, n, br⟩ c tp).length ≤ (threadRows ⟨rows, n', br'⟩ c tp).length := by
  show ((rows.filter p).filter _).length ≤ (rows.filter _).length
  rw [filter_filter_comm]
  exact List.length_filter_le _ _

/-- Appending preserves the per-thread cap invariant: afterwards every thread
still holds at most `sessionRetentionMessages` rows. -/
theorem append_preserves_cap (cfg : AppConfig) (db : SessionDb) (chatId : Int)
    (tp role content agent : String) (now : Int)
    (hcap : ∀ c' tp', (threadRows db c' tp').length ≤ cfg.sessionRetentionMessages)
    (c' : Int) (tp' : String) :
    (threadRows (SessionStore.append cfg db chatId tp role content agent now).1 c' tp').length
      ≤ cfg.sessionRetentionMessages := by
  unfold SessionStore.append
  set db1 : SessionDb :=
    ⟨db.rows ++ [⟨db.nextId, chatId, tp, role, content, agent, now⟩], db.nextId + 1, db.bridge⟩
    with hdb1
  have hbytime : ∀ dbx : SessionDb,
      (threadRows (SessionStore.pruneByTime cfg dbx now) c' tp').length
        ≤ (threadRows dbx c' tp').length := by
    intro dbx
    show (threadRows ⟨dbx.rows.filter _, dbx.nextId, dbx.bridge⟩ c' tp').length ≤ _
    exact threadRows_filter_length_le _ _ _ _ _ _ _ _
  by_cases hsame : c' = chatId ∧ tp' = tp
  · obtain ⟨rfl, rfl⟩ := hsame
    exact le_trans (hbytime _) (pruneThread_thread_cap cfg db1 c' tp')
  · have hstep1 : (threadRows (SessionStore.pruneThread cfg db1 chatId tp) c' tp').length
        ≤ (threadRows db1 c' tp').length := by
      show (threadRows ⟨db1.rows.filter _, db1.nextId, db1.bridge⟩ c' tp').length ≤ _
      exact threadRows_filter_length_le _ _ _ _ _ _ _ _
    have hunchanged : threadRows db1 c' tp' = threadRows db c' tp' := by
      show (db.rows ++ [_]).filter _ = db.rows.filter _
      rw [List.filter_append]
      have hrow : (([⟨db.nextId, chatId, tp, role, content, agent, now⟩] :
          List SessionRow).filter (fun r => r.chatId == c' && r.topic == tp')) = [] := by
        simp only [List.filter_cons, List.filter_nil]
        have : ¬((chatId == c') = true ∧ (tp == tp') = true) := by
          intro ⟨h1, h2⟩
          exact hsame ⟨(beq_iff_eq.mp h1).symm, (beq_iff_eq.mp h2).symm⟩
        rcases Decidable.not_and_iff_or_not.mp this with h | h
        · simp [Bool.and_eq_true, (Bool.not_eq_true _).mp h]
        · simp [Bool.and_eq_true, (Bool.not_eq_true _).mp h]
      rw [hrow, List.append_nil]
    calc (threadRows (SessionStore.pruneByTime cfg
            (SessionStore.pruneThread cfg db1 chatId tp) now) c' tp').length
        ≤ (threadRows (SessionStore.pruneThread cfg db1 chatId tp) c' tp').length :=
          hbytime _
      _ ≤ (threadRows db1 c' tp').length := hstep1
      _ ≤ cfg.sessionRetentionMessages := by rw [hunchanged]; exact hcap c' tp'

/-- C7 (amended): on any store state in which every thread holds at most the
configured cap of rows (the invariant `append` maintains, last conjunct),
`getHistory` returns at most the cap of rows; `getHistory` results are
ordered by `createdAt` ascending and `search` results by `createdAt`
descending.  (With tied `createdAt` values the rowid tiebreak runs opposite
to the (createdAt, id) lexicographic order in the ascending view — see the
counterexample.) -/
theorem C7_read_bounds_and_order (cfg : AppConfig) (db : SessionDb) (chatId : Int)
    (topicOpt : Option String) (limitOpt : Option Nat) (kw : String)
    (limitOpt2 : Option Nat) (chatId2 : Int) (tpA role content agent : String) (now : Int)
    (hcap : ∀ c' tp', (threadRows db c' tp').length ≤ cfg.sessionRetentionMessages) :
    (SessionStore.getHistory cfg db chatId topicOpt limitOpt).length
        ≤ cfg.sessionRetentionMessages
      ∧ (SessionStore.getHistory cfg db chatId topicOpt limitOpt).Pairwise
          (fun a b => a.createdAt ≤ b.createdAt)
      ∧ (SessionStore.search cfg db chatId kw limitOpt2).Pairwise
          (fun a b => b.createdAt ≤ a.createdAt)
      ∧ (∀ c' tp',
          (threadRows (SessionStore.append cfg db chatId2 tpA role content agent now).1
            c' tp').length ≤ cfg.sessionRetentionMessages) := by
  refine ⟨?_, ?_, ?_, append_preserves_cap cfg db chatId2 tpA role content agent now hcap⟩
  · simp only [SessionStore.getHistory]
    rw [List.length_reverse]
    calc (List.take (limitOpt.getD cfg.sessionRetentionMessages)
          (orderByCreatedAtDesc (threadRows db chatId
            (topicOpt.getD cfg.defaultTopic)))).length
        ≤ (orderByCreatedAtDesc (threadRows db chatId
            (topicOpt.getD cfg.defaultTopic))).length := (List.take_sublist _ _).length_le
      _ = (threadRows db chatId (topicOpt.getD cfg.defaultTopic)).length :=
          (perm_orderByCreatedAtDesc _).length_eq
      _ ≤ cfg.sessionRetentionMessages := hcap _ _
  · simp only [SessionStore.getHistory]
    rw [List.pairwise_reverse]
    exact ((sorted_createdAt_desc _).sublist (List.take_sublist _ _))
  · unfold SessionStore.search
    by_cases hkw : (kw == "") = true
    · simp [hkw]
    · simp only [hkw, Bool.false_eq_true, if_false]
      exact ((sorted_createdAt_desc _).sublist (List.take_sublist _ _))

/-- Witness database for C7: two rows in one thread with distinct timestamps. -/
def c7WitnessDb : SessionDb :=
  ⟨[⟨1, 1, "default", "user", "hello", "a", 100⟩,
    ⟨2, 1, "default", "assistant", "hi", "a", 200⟩], 3, []⟩

theorem C7_read_bounds_and_order_witness :
    (SessionStore.getHistory (demoConfig 2) c7WitnessDb 1 none none).length
        ≤ (demoConfig 2).sessionRetentionMessages
      ∧ (SessionStore.getHistory (demoConfig 2) c7WitnessDb 1 none none).Pairwise
          (fun a b => a.createdAt ≤ b.createdAt)
      ∧ (SessionStore.search (demoConfig 2) c7WitnessDb 1 "h" none).Pairwise
          (fun a b => b.createdAt ≤ a.createdAt)
      ∧ (∀ c' tp',
          (threadRows (SessionStore.append (demoConfig 2) c7WitnessDb 1 "default"
            "user" "third" "a" 300).1 c' tp').length
            ≤ (demoConfig 2).sessionRetentionMessages) :=
  C7_read_bounds_and_order (demoConfig 2) c7WitnessDb 1 none none "h" none 1 "default"
    "user" "third" "a" 300
    (fun c' tp' => le_trans (List.length_filter_le _ _) (by decide))

/-- C7 counterexample: two rows of one thread share `createdAt = 100`;
`getHistory` returns them as ids `[2, 1]`, which is NOT ordered by the
claimed (createdAt, id) ascending lexicographic order (that would be
`[1, 2]`): `ORDER BY created_at DESC` breaks the tie by ascending rowid and
the subsequent reverse turns that into a descending id order. -/
theorem C7_counterexample :
    ((SessionStore.getHistory (demoConfig 5)
        (appendRun (demoConfig 5) 1 "default"
          [⟨"user", "m1", "a", 100⟩, ⟨"user", "m2", "a", 100⟩] emptyDb)
        1 none none).map (·.id) = [2, 1])
    ∧ ¬ ((SessionStore.getHistory (demoConfig 5)
        (appendRun (demoConfig 5) 1 "default"
          [⟨"user", "m1", "a", 100⟩, ⟨"user", "m2", "a", 100⟩] emptyDb)
        1 none none).Pairwise
          (fun a b => a.createdAt < b.createdAt
            ∨ (a.createdAt = b.createdAt ∧ a.id < b.id))) :=
  ⟨by decide, by decide⟩

/-! ## C8: search scoping -/

/-- C8 (amended): `search` returns only rows whose `chatId` equals the given
one and whose content matches the SQL pattern `'%' || keyword || '%'` under
SQLite's default LIKE semantics (ASCII-case-insensitive, `%`/`_` in the
keyword act as wildcards); it never returns a row of a different chatId. -/
theorem C8_search_scoping (cfg : AppConfig) (db : SessionDb) (chatId : Int)
    (kw : String) (limitOpt : Option Nat) (r : SessionRow)
    (hr : r ∈ SessionStore.search cfg db chatId kw limitOpt) :
    r.chatId = chatId ∧ likeMatch ("%" ++ kw ++ "%") r.content = true := by
  unfold SessionStore.search at hr
  by_cases hkw : (kw == "") = true
  · simp [hkw] at hr
  · simp only [hkw, Bool.false_eq_true, if_false] at hr
    have hr2 := List.mem_of_mem_take hr
    have hr3 : r ∈ db.rows.filter
        (fun r => r.chatId == chatId && likeMatch ("%" ++ kw ++ "%") r.content) :=
      (perm_orderByCreatedAtDesc _).subset hr2
    have hcond := List.of_mem_filter hr3
    simp only [Bool.and_eq_true, beq_iff_eq] at hcond
    exact hcond

/-- Witness database for C8: one matching row in chat 2. -/
def c8WitnessDb : SessionDb :=
  ⟨[⟨1, 2, "ops", "user", "deploy failed", "a", 100⟩], 2, []⟩

theorem C8_search_scoping_witness :
    (⟨1, 2, "ops", "user", "deploy failed", "a", 100⟩ : SessionRow).chatId = 2
      ∧ likeMatch ("%" ++ "deploy" ++ "%")
        (⟨1, 2, "ops", "user", "deploy failed", "a", 100⟩ : SessionRow).content = true :=
  C8_search_scoping (demoConfig 5) c8WitnessDb 2 "deploy" none
    ⟨1, 2, "ops", "user", "deploy failed", "a", 100⟩ (by decide)

/-- `needle` occurs at the start of `hay`. -/
def listStartsWith : List Char → List Char → Bool
  | [], _ => true
  | _ :: _, [] => false
  | a :: as, b :: bs => a == b && listStartsWith as bs

/-- `needle` occurs as a contiguous substring of `hay` (exact,
case-sensitive containment — the reading of "contains keyword as a
substring" in the claim). -/
def containsSub (needle hay : List Char) : Bool :=
  match hay with
  | [] => listStartsWith needle []
  | _ :: rest => listStartsWith needle hay || containsSub needle rest

/-- C8 counterexample: a stored content "DEPLOY" is returned by
`search` for chatId 1 and keyword "deploy" — SQL LIKE matches
case-insensitively — even though "deploy" is not a substring of "DEPLOY",
refuting "returns only messages whose content contains keyword as a
substring". -/
theorem C8_counterexample :
    ((SessionStore.search (demoConfig 5)
        (appendRun (demoConfig 5) 1 "default" [⟨"user", "DEPLOY", "a", 100⟩] emptyDb)
        1 "deploy" none).map (·.content) = ["DEPLOY"])
    ∧ containsSub "deploy".toList "DEPLOY".toList = false :=
  ⟨by decide, by decide⟩

/-! ## JSON values (results of `JSON.parse`, inputs of `JSON.stringify`)

Numbers are modelled as integers: every number on the analysed paths (ids,
chat ids, offsets, lengths) is an integer, and the parser below rejects
fraction/exponent forms rather than approximating doubles. -/

inductive Jx where
  | null : Jx
  | bool : Bool → Jx
  | num : Int → Jx
  | str : String → Jx
  | arr : List Jx → Jx
  | obj : List (String × Jx) → Jx

mutual
def Jx.beq : Jx → Jx → Bool
  | .null, .null => true
  | .bool a, .bool b => a == b
  | .num a, .num b => a == b
  | .str a, .str b => a == b
  | .arr a, .arr b => beqJxList a b
  | .obj a, .obj b => beqJxKvs a b
  | _, _ => false
def beqJxList : List Jx → List Jx → Bool
  | [], [] => true
  | a :: as, b :: bs => Jx.beq a b && beqJxList as bs
  | _, _ => false
def beqJxKvs : List (String × Jx) → List (String × Jx) → Bool
  | [], [] => true
  | (k1, v1) :: as, (k2, v2) :: bs => k1 == k2 && Jx.beq v1 v2 && beqJxKvs as bs
  | _, _ => false
end

instance : BEq Jx := ⟨Jx.beq⟩

/-- JS property access on a parsed JSON object.  `JSON.parse` keeps the LAST
occurrence of a duplicated key, hence the reverse. -/
def objGet (kvs : List (String × Jx)) (key : String) : Option Jx :=
  (kvs.reverse.find? (fun e => e.1 == key)).map (·.2)

/-- `isRpcRequest`: a non-null object with `jsonrpc === '2.0'` and a string
`method`. -/
def isRpcRequest (v : Jx) : Bool :=
  match v with
  | Jx.obj kvs =>
      (objGet kvs "jsonrpc" == some (Jx.str "2.0"))
        && (match objGet kvs "method" with
            | some (Jx.str _) => true
            | _ => false)
  | _ => false

/-- `isRpcPayload`: an array of requests (`every` — vacuously true when
empty) or a single request. -/
def isRpcPayload (v : Jx) : Bool :=
  match v with
  | Jx.arr items => items.all isRpcRequest
  | _ => isRpcRequest v

/-! ### JSON parser (model of `JSON.parse` restricted to integer numerals) -/

/-- The `{` character (0x7B). -/
def lbraceChar : Char := Char.ofNat 123

/-- The `}` character (0x7D). -/
def rbraceChar : Char := Char.ofNat 125

/-- JSON inter-token whitespace. -/
def jsonWs (c : Char) : Bool := c == ' ' || c == '\t' || c == '\n' || c == '\r'

def skipWs : List Char → List Char
  | [] => []
  | c :: rest => if jsonWs c then skipWs rest else c :: rest

def isDigitChar (c : Char) : Bool := decide ('0' ≤ c) && decide (c ≤ '9')

def takeDigits : List Char → List Char × List Char
  | [] => ([], [])
  | c :: rest =>
      if isDigitChar c then
        let p := takeDigits rest
        (c :: p.1, p.2)
      else ([], c :: rest)

/-- JSON forbids redundant leading zeros. -/
def digitsLeadingOk : List Char → Bool
  | [] => false
  | ['0'] => true
  | '0' :: _ => false
  | _ => true

/-- After an integer numeral nothing may continue the number (the model
rejects fraction/exponent forms). -/
def numTailOk : List Char → Bool
  | '.' :: _ => false
  | 'e' :: _ => false
  | 'E' :: _ => false
  | _ => true

def parseNumberTok : List Char → Option (Int × List Char)
  | '-' :: rest =>
      let p := takeDigits rest
      if digitsLeadingOk p.1 && numTailOk p.2 then
        some (-(decimalToNatL p.1 : Int), p.2)
      else none
  | input =>
      let p := takeDigits input
      if digitsLeadingOk p.1 && numTailOk p.2 then
        some ((decimalToNatL p.1 : Int), p.2)
      else none

def hexVal (c : Char) : Option Nat :=
  if isDigitChar c then some (c.toNat - 48)
  else if decide ('a' ≤ c) && decide (c ≤ 'f') then some (c.toNat - 87)
  else if decide ('A' ≤ c) && decide (c ≤ 'F') then some (c.toNat - 55)
  else none

/-- Body of a JSON string literal, after the opening quote; `acc` holds the
collected characters in reverse. -/
def parseStrBody : List Char → List Char → Option (String × List Char)
  | acc, '"' :: rest => some (String.mk acc.reverse, rest)
  | acc, '\\' :: '"' :: rest => parseStrBody ('"' :: acc) rest
  | acc, '\\' :: '\\' :: rest => parseStrBody ('\\' :: acc) rest
  | acc, '\\' :: '/' :: rest => parseStrBody ('/' :: acc) rest
  | acc, '\\' :: 'b' :: rest => parseStrBody ('\x08' :: acc) rest
  | acc, '\\' :: 'f' :: rest => parseStrBody ('\x0c' :: acc) rest
  | acc, '\\' :: 'n' :: rest => parseStrBody ('\n' :: acc) rest
  | acc, '\\' :: 'r' :: rest => parseStrBody ('\r' :: acc) rest
  | acc, '\\' :: 't' :: rest => parseStrBody ('\t' :: acc) rest
  | acc, '\\' :: 'u' :: h1 :: h2 :: h3 :: h4 :: rest =>
      match hexVal h1, hexVal h2, hexVal h3, hexVal h4 with
      | some a, some b, some c, some d =>
          parseStrBody (Char.ofNat (((a * 16 + b) * 16 + c) * 16 + d) :: acc) rest
      | _, _, _, _ => none
  | _, '\\' :: _ => none
  | acc, c :: rest => if c.toNat < 32 then none else parseStrBody (c :: acc) rest
  | _, [] => none

mutual
def parseVal : Nat → List Char → Option (Jx × List Char)
  | 0, _ => none
  | fuel + 1, input =>
    match skipWs input with
    | [] => none
    | c :: rest =>
      if c = lbraceChar then
        match skipWs rest with
        | c2 :: r3 =>
            if c2 = rbraceChar then some (.obj [], r3)
            else parseMembers fuel [] (c2 :: r3)
        | [] => none
      else if c = '[' then
        match skipWs rest with
        | c2 :: r3 =>
            if c2 = ']' then some (.arr [], r3)
            else parseItems fuel [] (c2 :: r3)
        | [] => none
      else if c = '"' then
        (parseStrBody [] rest).map (fun p => (.str p.1, p.2))
      else if c = 't' then
        match rest with
        | 'r' :: 'u' :: 'e' :: r => some (.bool true, r)
        | _ => none
      else if c = 'f' then
        match rest with
        | 'a' :: 'l' :: 's' :: 'e' :: r => some (.bool false, r)
        | _ => none
      else if c = 'n' then
        match rest with
        | 'u' :: 'l' :: 'l' :: r => some (.null, r)
        | _ => none
      else if c = '-' || isDigitChar c then
        (parseNumberTok (c :: rest)).map (fun p => (.num p.1, p.2))
      else none

def parseItems : Nat → List Jx → List Char → Option (Jx × List Char)
  | 0, _, _ => none
  | fuel + 1, acc, input =>
    match parseVal fuel input with
    | none => none
    | some (v, r) =>
      match skipWs r with
      | ',' :: r2 => parseItems fuel (v :: acc) r2
      | c2 :: r2 => if c2 = ']' then some (.arr (v :: acc).reverse, r2) else none
      | [] => none

def parseMembers : Nat → List (String × Jx) → List Char → Option (Jx × List Char)
  | 0, _, _ => none
  | fuel + 1, acc, input =>
    match input with
    | '"' :: r =>
      match parseStrBody [] r with
      | none => none
      | some (k, r2) =>
        match skipWs r2 with
        | ':' :: r3 =>
          match parseVal fuel r3 with
          | none => none
          | some (v, r4) =>
            match skipWs r4 with
            | ',' :: r5 => parseMembers fuel ((k, v) :: acc) (skipWs r5)
            | c5 :: r5 =>
                if c5 = rbraceChar then some (.obj ((k, v) :: acc).reverse, r5) else none
            | [] => none
        | _ => none
    | _ => none
end

/-- `JSON.parse`: one value, then only trailing whitespace. -/
def jsonParse (s : String) : Option Jx :=
  match parseVal (s.toList.length + 2) s.toList with
  | some (v, rest) => if (skipWs rest).isEmpty then some v else none
  | none => none

/-! ### JSON serialization (model of `JSON.stringify`) -/

def hexDigitChar (d : Nat) : Char :=
  if d < 10 then Char.ofNat (48 + d) else Char.ofNat (87 + d)

def escapeJsonChar (c : Char) : List Char :=
  if c = '"' then ['\\', '"']
  else if c = '\\' then ['\\', '\\']
  else if c = '\x08' then ['\\', 'b']
  else if c = '\t' then ['\\', 't']
  else if c = '\n' then ['\\', 'n']
  else if c = '\x0c' then ['\\', 'f']
  else if c = '\r' then ['\\', 'r']
  else if c.toNat < 32 then
    ['\\', 'u', '0', '0', hexDigitChar (c.toNat / 16), hexDigitChar (c.toNat % 16)]
  else [c]

def stringifyString (s : String) : String :=
  "\"" ++ String.mk ((s.toList.map escapeJsonChar).flatten) ++ "\""

mutual
def Jx.stringify : Jx → String
  | .null => "null"
  | .bool b => if b then "true" else "false"
  | .num n => intToDecimal n
  | .str s => stringifyString s
  | .arr items => "[" ++ stringifyList items ++ "]"
  | .obj kvs => "\x7b" ++ stringifyKvs kvs ++ "\x7d"
def stringifyList : List Jx → String
  | [] => ""
  | [x] => Jx.stringify x
  | x :: xs => Jx.stringify x ++ "," ++ stringifyList xs
def stringifyKvs : List (String × Jx) → String
  | [] => ""
  | [(k, v)] => stringifyString k ++ ":" ++ Jx.stringify v
  | (k, v) :: xs => stringifyString k ++ ":" ++ Jx.stringify v ++ "," ++ stringifyKvs xs
end

/-! ## UTF-8 encoding (model of `Buffer.byteLength(s, 'utf8')` and
`Buffer.from(s, 'utf8')`) -/

def utf8EncodeChar (n : Nat) : List Nat :=
  if n < 128 then [n]
  else if n < 2048 then [192 + n / 64, 128 + n % 64]
  else if n < 65536 then [224 + n / 4096, 128 + (n / 64) % 64, 128 + n % 64]
  else [240 + n / 262144, 128 + (n / 4096) % 64, 128 + (n / 64) % 64, 128 + n % 64]

def utf8Encode (s : String) : List Nat :=
  (s.toList.map (fun c => utf8EncodeChar c.toNat)).flatten

/-! ## JS string/number coercions used by the dispatcher -/

/-- JS (and regexp `\s`) ASCII whitespace; exotic Unicode space characters
are not modelled (they do not occur on the analysed paths). -/
def jsWsChar (c : Char) : Bool :=
  c == ' ' || c == '\t' || c == '\n' || c == '\r' || c == '\x0b' || c == '\x0c'

/-- JS `String.prototype.trim`. -/
def jsTrimL (l : List Char) : List Char :=
  ((l.dropWhile jsWsChar).reverse.dropWhile jsWsChar).reverse

/-- JS `String.prototype.trim`. -/
def jsTrim (s : String) : String := String.mk (jsTrimL s.toList)

mutual
/-- JS `String(x)` on JSON values. -/
def jsString : Jx → String
  | .str s => s
  | .num n => intToDecimal n
  | .bool b => if b then "true" else "false"
  | .null => "null"
  | .obj _ => "[object Object]"
  | .arr items => jsStringArrItems items
def jsStringArrItems : List Jx → String
  | [] => ""
  | [x] => jsStringItem x
  | x :: xs => jsStringItem x ++ "," ++ jsStringArrItems xs
def jsStringItem : Jx → String
  | .null => ""
  | v => jsString v
end

/-- JS `Number(s)` for strings: empty/whitespace gives 0, decimal integer
numerals parse, anything else is NaN (`none`).  Hex/float forms are not
modelled; they do not occur on the analysed paths. -/
def strToNumber (s : String) : Option Int :=
  let t := jsTrimL s.toList
  if t.isEmpty then some 0
  else
    match t with
    | '-' :: ds => if !ds.isEmpty && ds.all isDigitChar then
        some (-(decimalToNatL ds : Int)) else none
    | ds => if ds.all isDigitChar then some ((decimalToNatL ds : Int)) else none

/-- JS `Number(x)`; `none` models NaN.  Array/object coercion (which goes
through their string form) is collapsed to NaN; such arguments do not occur
on the analysed paths. -/
def jsNumberOpt (v : Option Jx) : Option Int :=
  match v with
  | none => none
  | some Jx.null => some 0
  | some (Jx.bool b) => some (if b then 1 else 0)
  | some (Jx.num n) => some n
  | some (Jx.str s) => strToNumber s
  | some (Jx.arr _) => none
  | some (Jx.obj _) => none

/-- JS `Number(x)` flowed into an integer slot; NaN is collapsed to 0.
NaN-valued ids/offsets do not occur on the analysed paths and no claim
depends on them. -/
def jsNumberD (v : Option Jx) : Int := (jsNumberOpt v).getD 0

/-- JS truthiness of `args.x`. -/
def jsTruthy (v : Option Jx) : Bool :=
  match v with
  | none => false
  | some Jx.null => false
  | some (Jx.bool b) => b
  | some (Jx.num n) => !(n == 0)
  | some (Jx.str s) => !(s == "")
  | some (Jx.arr _) => true
  | some (Jx.obj _) => true

/-- `args.x ? String(args.x) : undefined`. -/
def optStringArg (v : Option Jx) : Option String :=
  match v with
  | some x => if jsTruthy (some x) then some (jsString x) else none
  | none => none

/-- `args.limit ? Number(args.limit) : undefined`, flowed into a SQL LIMIT
slot (negative limits do not occur on the analysed paths). -/
def optLimitArg (v : Option Jx) : Option Nat :=
  match v with
  | some x => if jsTruthy (some x) then some (jsNumberD (some x)).toNat else none
  | none => none

/-- `String(args.x ?? dflt)` where `dflt` is a string. -/
def strArgD (v : Option Jx) (dflt : String) : String :=
  match v with
  | none => dflt
  | some Jx.null => dflt
  | some x => jsString x

/-- `(args.role as 'user' | 'assistant' | 'system') ?? 'user'`: a nullish
coalesce with no conversion; non-string values go through the driver's
string form. -/
def roleArg (v : Option Jx) : String :=
  match v with
  | none => "user"
  | some Jx.null => "user"
  | some (Jx.str s) => s
  | some x => jsString x

/-- Property access on a parsed JSON value: objects look up the key,
non-object non-null values yield `undefined`. -/
def reqGet (v : Jx) (key : String) : Option Jx :=
  match v with
  | Jx.obj kvs => objGet kvs key
  | _ => none

/-- Template-literal display of a possibly-undefined value. -/
def jsTemplateDisplay (v : Option Jx) : String :=
  match v with
  | none => "undefined"
  | some x => jsString x

/-! ## Command parser (src/topic.ts = src/unnamed/part_005) -/

def isWordChar (c : Char) : Bool :=
  isDigitChar c || (decide ('a' ≤ c) && decide (c ≤ 'z'))
    || (decide ('A' ≤ c) && decide (c ≤ 'Z')) || c == '_'

def lowerEqList (a b : List Char) : Bool :=
  (a.map asciiLower) == (b.map asciiLower)

/-- Match `^/<cmd>\s+` case-insensitively; returns the text after the
whitespace run (the capture start). -/
def matchSlashCmd (cmd : List Char) (raw : List Char) : Option (List Char) :=
  match raw with
  | '/' :: rest =>
      if lowerEqList (rest.take cmd.length) cmd then
        match rest.drop cmd.length with
        | c :: tail => if jsWsChar c then some ((c :: tail).dropWhile jsWsChar) else none
        | [] => none
      else none
  | _ => none

/-- `parseTelegramText` (the pure command parser); returns the result object
as the JSON value the dispatcher will serialize (each branch's literal key
set and order). -/
def parseTelegramText (input : Option String) (cfg : AppConfig)
    (currentTopic currentAgent : Option String) : Jx :=
  let raw := jsTrim (input.getD "")
  let rawL := raw.toList
  let topic := currentTopic.getD cfg.defaultTopic
  let agent := currentAgent.getD cfg.defaultAgent
  let tryTopic : Option Jx :=
    match matchSlashCmd "topic".toList rawL with
    | some cap =>
        if !cap.isEmpty && cap.length ≤ 64 && cap.all (fun c => isWordChar c || c == '-') then
          some (Jx.obj [("topic", Jx.str (String.mk cap)), ("agent", Jx.str agent),
            ("text", Jx.str ("Topic changed to " ++ String.mk cap)),
            ("command", Jx.str "topic")])
        else none
    | none => none
  let tryAgent : Option Jx :=
    match matchSlashCmd "agent".toList rawL with
    | some cap =>
        if !cap.isEmpty && cap.length ≤ 64
            && cap.all (fun c => isWordChar c || c == '-' || c == '.') then
          some (Jx.obj [("topic", Jx.str topic), ("agent", Jx.str (String.mk cap)),
            ("text", Jx.str ("Agent changed to " ++ String.mk cap)),
            ("command", Jx.str "agent")])
        else none
    | none => none
  let historyObj : String → Jx := fun kw =>
    Jx.obj [("topic", Jx.str topic), ("agent", Jx.str agent),
      ("text", Jx.str "History query"), ("command", Jx.str "history"),
      ("keyword", Jx.str kw)]
  let tryHistory : Option Jx :=
    if lowerEqList rawL "/history".toList then some (historyObj "")
    else
      match matchSlashCmd "history".toList rawL with
      | some cap =>
          if !cap.isEmpty && cap.all (fun c => !(c == '\n' || c == '\r')) then
            some (historyObj (jsTrim (String.mk cap)))
          else none
      | none => none
  let tryMode : Option Jx :=
    match matchSlashCmd "mode".toList rawL with
    | some cap =>
        let lowered := String.mk (cap.map asciiLower)
        if lowered == "manual" || lowered == "auto" then
          some (Jx.obj [("topic", Jx.str topic), ("agent", Jx.str agent),
            ("text", Jx.str ("Reply mode changed to " ++ lowered)),
            ("command", Jx.str "mode"), ("mode", Jx.str lowered)])
        else none
    | none => none
  match tryTopic with
  | some r => r
  | none =>
    match tryAgent with
    | some r => r
    | none =>
      match tryHistory with
      | some r => r
      | none =>
        match tryMode with
        | some r => r
        | none => Jx.obj [("topic", Jx.str topic), ("agent", Jx.str agent),
            ("text", Jx.str raw)]

/-! ## RPC dispatcher (src/mcpServer.ts, second document of src/unnamed/part_003) -/

inductive RpcTransportMode where
  | framed : RpcTransportMode
  | jsonl : RpcTransportMode
deriving DecidableEq, Repr

structure RpcErrorObj where
  code : Int
  message : String
deriving DecidableEq, Repr

/-- An `RpcResponse` value: `id` is `request.id ?? null`; exactly one of
`result`/`error` is set by the dispatcher. -/
structure RpcResponse where
  id : Jx
  result : Option Jx
  error : Option RpcErrorObj

/-- The JSON object a response serializes to (the literal key order of the
source objects: jsonrpc, id, then result or error). -/
def RpcResponse.toJx (r : RpcResponse) : Jx :=
  Jx.obj ([("jsonrpc", Jx.str "2.0"), ("id", r.id)]
    ++ (match r.result with | some v => [("result", v)] | none => [])
    ++ (match r.error with
        | some e => [("error", Jx.obj [("code", Jx.num e.code), ("message", Jx.str e.message)])]
        | none => []))

/-- External collaborators of the dispatcher: the Telegram HTTP client
(src/telegram.ts, network I/O) and the model catalog (src/modelCatalog.ts,
not under src/); both are modelled as oracles.  `sendMessage` takes the
possibly-NaN coerced chat id. -/
structure CollabEnv where
  getUpdates : Option Int → Except String Jx
  sendMessage : Option Int → String → Except String Int
  catalogList : List Jx
  catalogFind : String → Option Jx

def numProp : Jx := Jx.obj [("type", Jx.str "number")]

def strProp : Jx := Jx.obj [("type", Jx.str "string")]

def schemaNoReq (props : List (String × Jx)) : Jx :=
  Jx.obj [("type", Jx.str "object"), ("properties", Jx.obj props)]

def schemaReq (req : List String) (props : List (String × Jx)) : Jx :=
  Jx.obj [("type", Jx.str "object"), ("required", Jx.arr (req.map Jx.str)),
    ("properties", Jx.obj props)]

def toolDesc (name description : String) (schema : Jx) : Jx :=
  Jx.obj [("name", Jx.str name), ("description", Jx.str description),
    ("inputSchema", schema)]

/-- The static tool descriptor table (`const tools = [...]`). -/
def toolsJx : List Jx :=
  [toolDesc "telegram_fetch_updates" "Fetch Telegram updates from bot API"
      (schemaNoReq [("offset", numProp)]),
    toolDesc "telegram_send_message" "Send text message to Telegram chat"
      (schemaReq ["chatId", "text"] [("chatId", numProp), ("text", strProp)]),
    toolDesc "session_append" "Append a message into session store"
      (schemaReq ["chatId", "topic", "role", "content"]
        [("chatId", numProp), ("topic", strProp), ("role", strProp),
          ("content", strProp), ("agent", strProp)]),
    toolDesc "session_get_history" "Read historical messages for chat and topic"
      (schemaReq ["chatId"] [("chatId", numProp), ("topic", strProp), ("limit", numProp)]),
    toolDesc "session_search" "Search historical messages by keyword"
      (schemaReq ["chatId", "keyword"]
        [("chatId", numProp), ("keyword", strProp), ("limit", numProp)]),
    toolDesc "session_list_threads" "List historical conversation threads"
      (schemaNoReq [("chatId", numProp)]),
    toolDesc "session_continue" "Build continue context with summary"
      (schemaReq ["chatId", "topic"]
        [("chatId", numProp), ("topic", strProp), ("limit", numProp)]),
    toolDesc "bridge_prepare_message"
      "Parse Telegram command and derive topic/agent for current message"
      (schemaReq ["chatId", "text"]
        [("chatId", numProp), ("text", strProp), ("topic", strProp), ("mode", strProp)]),
    toolDesc "bridge_get_start_message"
      "Get standard /start welcome message with repository link" (schemaNoReq []),
    toolDesc "copilot_list_models" "List available Copilot models and pricing notes"
      (schemaNoReq []),
    toolDesc "copilot_select_model" "Select model for a chat_id + topic thread"
      (schemaReq ["chatId", "topic", "modelId"]
        [("chatId", numProp), ("topic", strProp), ("modelId", strProp)]),
    toolDesc "copilot_get_selected_model" "Get selected model for a chat_id + topic thread"
      (schemaReq ["chatId", "topic"] [("chatId", numProp), ("topic", strProp)]),
    toolDesc "bridge_get_offset" "Get last processed Telegram update offset"
      (schemaNoReq []),
    toolDesc "bridge_set_offset" "Persist last processed Telegram update offset"
      (schemaReq ["offset"] [("offset", numProp)])]

/-- The failure raised by `assertTelegramTokenConfigured`. -/
def telegramTokenMsg : String :=
  "TELEGRAM_BOT_TOKEN is required for telegram tools. Please set env TELEGRAM_BOT_TOKEN and restart MCP server."

def assertTelegramTokenConfigured (cfg : AppConfig) : Except String Unit :=
  if cfg.telegramBotToken == "" then Except.error telegramTokenMsg else Except.ok ()

/-- The row object returned by `session.append` (`{...message, id, createdAt}`
spread key order). -/
def rowToJx (r : SessionRow) : Jx :=
  Jx.obj [("chatId", Jx.num r.chatId), ("topic", Jx.str r.topic), ("role", Jx.str r.role),
    ("content", Jx.str r.content), ("agent", Jx.str r.agent), ("id", Jx.num r.id),
    ("createdAt", Jx.num r.createdAt)]

/-- A row as returned by the SELECT column list
`id, chat_id as chatId, topic, role, content, agent, created_at as createdAt`. -/
def rowSelectToJx (r : SessionRow) : Jx :=
  Jx.obj [("id", Jx.num r.id), ("chatId", Jx.num r.chatId), ("topic", Jx.str r.topic),
    ("role", Jx.str r.role), ("content", Jx.str r.content), ("agent", Jx.str r.agent),
    ("createdAt", Jx.num r.createdAt)]

def threadInfoToJx (t : SessionStore.ThreadInfo) : Jx :=
  Jx.obj [("chatId", Jx.num t.chatId), ("topic", Jx.str t.topic),
    ("messageCount", Jx.num t.messageCount), ("updatedAt", Jx.num t.updatedAt)]

/-- Modelled from the spec: the `/start` welcome text with the repository
link (the topic.ts revision that produces it is not under src/; the in-repo
part_005 parser has no `/start` branch). -/
def startMessageText (cfg : AppConfig) : String :=
  "Welcome to telegram-copilot-bridge. Repository: " ++ cfg.githubRepoUrl

def catalogNote : String := "模型可用性与收费规则以你的 GitHub Copilot 订阅与官方页面为准。"

/-- `callTool` (the tool registry dispatch).  `now` is the `Date.now()`
timestamp observed by any store write this call performs. -/
def callTool (env : CollabEnv) (cfg : AppConfig) (db : SessionDb) (now : Int)
    (nameArg : Option Jx) (args : List (String × Jx)) : Except String (Jx × SessionDb) :=
  match nameArg with
  | some (Jx.str name) =>
    if name = "telegram_fetch_updates" ∨ name = "telegram.fetch_updates" then
      match assertTelegramTokenConfigured cfg with
      | Except.error e => Except.error e
      | Except.ok _ =>
        let offset := match objGet args "offset" with
          | some (Jx.num n) => some n
          | _ => none
        (env.getUpdates offset).map (fun v => (v, db))
    else if name = "telegram_send_message" ∨ name = "telegram.send_message" then
      match assertTelegramTokenConfigured cfg with
      | Except.error e => Except.error e
      | Except.ok _ =>
        let chatId := jsNumberOpt (objGet args "chatId")
        let text := strArgD (objGet args "text") ""
        (env.sendMessage chatId text).map (fun mid =>
          (Jx.obj [("ok", Jx.bool true), ("messageId", Jx.num mid)], db))
    else if name = "session_append" ∨ name = "session.append" then
      let chatId := jsNumberD (objGet args "chatId")
      let topic := strArgD (objGet args "topic") cfg.defaultTopic
      let role := roleArg (objGet args "role")
      let content := strArgD (objGet args "content") ""
      let agent := strArgD (objGet args "agent") cfg.defaultAgent
      let res := SessionStore.append cfg db chatId topic role content agent now
      Except.ok (rowToJx res.2, res.1)
    else if name = "session_get_history" ∨ name = "session.get_history" then
      let chatId := jsNumberD (objGet args "chatId")
      let topicOpt := optStringArg (objGet args "topic")
      let limitOpt := optLimitArg (objGet args "limit")
      Except.ok (Jx.arr ((SessionStore.getHistory cfg db chatId topicOpt limitOpt).map
        rowSelectToJx), db)
    else if name = "session_search" ∨ name = "session.search" then
      let chatId := jsNumberD (objGet args "chatId")
      let keyword := strArgD (objGet args "keyword") ""
      let limitOpt := optLimitArg (objGet args "limit")
      Except.ok (Jx.arr ((SessionStore.search cfg db chatId keyword limitOpt).map
        rowSelectToJx), db)
    else if name = "session_list_threads" ∨ name = "session.list_threads" then
      let chatOpt := match objGet args "chatId" with
        | some (Jx.num n) => some n
        | _ => none
      Except.ok (Jx.arr ((SessionStore.listThreads db chatOpt).map threadInfoToJx), db)
    else if name = "session_continue" ∨ name = "session.continue" then
      let chatId := jsNumberD (objGet args "chatId")
      let topic := strArgD (objGet args "topic") cfg.defaultTopic
      let lim := match optLimitArg (objGet args "limit") with
        | some n => n
        | none => 20
      let r := SessionStore.continueContext cfg db chatId topic lim
      Except.ok (Jx.obj [("chatId", Jx.num chatId), ("topic", Jx.str topic),
        ("agent", Jx.str r.2.1), ("messages", Jx.arr (r.1.map rowSelectToJx)),
        ("summary", Jx.str r.2.2)], db)
    else if name = "bridge_prepare_message" ∨ name = "bridge.prepare_message" then
      let chatId := jsNumberD (objGet args "chatId")
      let topic := (optStringArg (objGet args "topic")).getD cfg.defaultTopic
      let mode := if objGet args "mode" == some (Jx.str "auto") then "auto" else "manual"
      let profile := SessionStore.getCurrentProfile cfg db chatId topic
      let _selModel := SessionStore.getSelectedModel cfg db chatId topic
      let innerCfg : AppConfig := { cfg with
        telegramBotToken := "hidden", telegramApiBase := "hidden", replyMode := mode,
        pollTimeoutSeconds := 20, pollIntervalMs := 1200, sessionRetentionDays := 30,
        sessionRetentionMessages := 200, dbPath := ":memory:" }
      Except.ok (parseTelegramText (some (strArgD (objGet args "text") "")) innerCfg
        (some profile.1) (some profile.2), db)
    else if name = "bridge_get_start_message" ∨ name = "bridge.get_start_message" then
      Except.ok (Jx.str (startMessageText cfg), db)
    else if name = "copilot_list_models" ∨ name = "copilot.list_models" then
      Except.ok (Jx.obj [("models", Jx.arr env.catalogList), ("note", Jx.str catalogNote)], db)
    else if name = "copilot_select_model" ∨ name = "copilot.select_model" then
      let chatId := jsNumberD (objGet args "chatId")
      let topic := strArgD (objGet args "topic") cfg.defaultTopic
      let modelId := jsTrim (strArgD (objGet args "modelId") "")
      match env.catalogFind modelId with
      | none => Except.error ("Model not found in catalog: " ++ modelId)
      | some _ =>
        let res := SessionStore.setSelectedModel db chatId topic modelId now
        Except.ok (Jx.obj [("chatId", Jx.num chatId), ("topic", Jx.str topic),
          ("modelId", Jx.str res.2)], res.1)
    else if name = "copilot_get_selected_model" ∨ name = "copilot.get_selected_model" then
      let chatId := jsNumberD (objGet args "chatId")
      let topic := strArgD (objGet args "topic") cfg.defaultTopic
      let modelId := SessionStore.getSelectedModel cfg db chatId topic
      let modelJx := (env.catalogFind modelId).getD (Jx.obj [("id", Jx.str modelId),
        ("name", Jx.str modelId), ("provider", Jx.str "unknown"),
        ("pricing", Jx.str "请查看官方价格页")])
      Except.ok (Jx.obj [("chatId", Jx.num chatId), ("topic", Jx.str topic),
        ("model", modelJx)], db)
    else if name = "bridge_get_offset" ∨ name = "bridge.get_offset" then
      Except.ok (Jx.obj [("offset", Jx.num (SessionStore.getOffset db))], db)
    else if name = "bridge_set_offset" ∨ name = "bridge.set_offset" then
      let offArg := match objGet args "offset" with
        | none => Jx.num 0
        | some Jx.null => Jx.num 0
        | some v => v
      let res := SessionStore.setOffset db (jsNumberD (some offArg)) now
      Except.ok (Jx.obj [("offset", Jx.num res.2)], res.1)
    else Except.error ("Unknown tool: " ++ name)
  | v => Except.error ("Unknown tool: " ++ jsTemplateDisplay v)

def initializeResult : Jx :=
  Jx.obj [("protocolVersion", Jx.str "2024-11-05"),
    ("serverInfo", Jx.obj [("name", Jx.str "telegram-copilot-bridge"),
      ("version", Jx.str "0.1.0")]),
    ("capabilities", Jx.obj [("tools", Jx.obj [])])]

/-- Is this value JSON `null`?  (`request.method` access throws on it.) -/
def Jx.isNull : Jx → Bool
  | .null => true
  | _ => false

/-- `(request.params ?? {})` viewed as an object. -/
def toolCallParams (request : Jx) : List (String × Jx) :=
  match reqGet request "params" with
  | some (Jx.obj kvs) => kvs
  | _ => []

/-- `params.name`. -/
def toolCallNameArg (request : Jx) : Option Jx :=
  objGet (toolCallParams request) "name"

/-- `params.arguments ?? {}` viewed as an object. -/
def toolCallArgs (request : Jx) : List (String × Jx) :=
  match objGet (toolCallParams request) "arguments" with
  | some (Jx.obj kvs) => kvs
  | _ => []

/-- `handleRequest`.  The `Except.error` case models the one uncaught way
out: `request.method` property access on a `null` element (the
`notifications/initialized` check runs before the try block; JSON bodies
cannot contain `undefined`).  Everything inside the try block that throws —
i.e. `callTool` failures — is caught and turned into a `-32000` error
response. -/
def handleRequest (env : CollabEnv) (cfg : AppConfig) (now : Int) (db : SessionDb)
    (request : Jx) : Except String (Option RpcResponse × SessionDb) :=
  if request.isNull then
    Except.error "Cannot read properties of null (reading 'method')"
  else
    match reqGet request "method" with
    | some (Jx.str m) =>
      if m = "notifications/initialized" then
        Except.ok (none, db)
      else
        let rid := (reqGet request "id").getD Jx.null
        if m = "initialize" then
          Except.ok (some ⟨rid, some initializeResult, none⟩, db)
        else if m = "tools/list" then
          Except.ok (some ⟨rid, some (Jx.obj [("tools", Jx.arr toolsJx)]), none⟩, db)
        else if m = "tools/call" then
          match callTool env cfg db now (toolCallNameArg request) (toolCallArgs request) with
          | Except.ok res =>
              Except.ok (some ⟨rid, some (Jx.obj [("content", Jx.arr [Jx.obj
                [("type", Jx.str "text"), ("text", Jx.str (Jx.stringify res.1))]])]), none⟩,
                res.2)
          | Except.error msg => Except.ok (some ⟨rid, none, some ⟨-32000, msg⟩⟩, db)
        else
          Except.ok (some ⟨rid, none, some ⟨-32601, "Method not found: " ++ m⟩⟩, db)
    | other =>
        Except.ok (some ⟨(reqGet request "id").getD Jx.null, none,
          some ⟨-32601, "Method not found: " ++ jsTemplateDisplay other⟩⟩, db)

/-- `writeResponse`: serialize one response (or an aggregated array of
responses) and emit it in the payload's transport mode; the framed header
counts the UTF-8 bytes of the body. -/
def writeResponse (response : RpcResponse ⊕ List RpcResponse)
    (mode : RpcTransportMode) : String :=
  let bodyVal := match response with
    | Sum.inl r => r.toJx
    | Sum.inr rs => Jx.arr (rs.map RpcResponse.toJx)
  let body := Jx.stringify bodyVal
  match mode with
  | RpcTransportMode.jsonl => body ++ "\n"
  | RpcTransportMode.framed =>
      "Content-Length: " ++ String.mk (natToDecimalL (utf8Encode body).length)
        ++ "\r\n\r\n" ++ body

/-- The `for (const request of requests)` loop of `handleIncomingPayload`:
requests are handled to completion one at a time, in order, collecting the
produced responses; an uncaught throw aborts the rest of the batch. -/
def processRequests (env : CollabEnv) (cfg : AppConfig) (now : Int) :
    List Jx → SessionDb → List RpcResponse → Except String (List RpcResponse × SessionDb)
  | [], db, acc => Except.ok (acc.reverse, db)
  | req :: rest, db, acc =>
    match handleRequest env cfg now db req with
    | Except.error e => Except.error e
    | Except.ok (some r, db') => processRequests env cfg now rest db' (r :: acc)
    | Except.ok (none, db') => processRequests env cfg now rest db' acc

/-- `Array.isArray(payload) ? payload : [payload]`. -/
def toRequests (payload : Jx) : List Jx :=
  match payload with
  | Jx.arr items => items
  | v => [v]

/-- `Array.isArray(payload)`. -/
def payloadIsArr : Jx → Bool
  | Jx.arr _ => true
  | _ => false

/-- `handleIncomingPayload`: dispatch each request of the payload, then emit
the responses — aggregated into one JSON array only when the payload was an
array and more than one response resulted, unwrapped otherwise, and nothing
when no response resulted.  Returns the store state and the emitted stdout
strings. -/
def handleIncomingPayload (env : CollabEnv) (cfg : AppConfig) (now : Int)
    (payload : Jx) (mode : RpcTransportMode) (db : SessionDb) :
    Except String (SessionDb × List String) :=
  match processRequests env cfg now (toRequests payload) db [] with
  | Except.error e => Except.error e
  | Except.ok (responses, db') =>
    match responses with
    | [] => Except.ok (db', [])
    | r :: rs =>
      if payloadIsArr payload && decide (rs.length + 1 > 1) then
        Except.ok (db', [writeResponse (Sum.inr (r :: rs)) mode])
      else
        Except.ok (db', [writeResponse (Sum.inl r) mode])

/-! ## C3: response identity -/

theorem handleRequest_gives_id (env : CollabEnv) (cfg : AppConfig) (now : Int)
    (db : SessionDb) (kvs : List (String × Jx))
    (hnotif : objGet kvs "method" ≠ some (Jx.str "notifications/initialized")) :
    ∃ resp db', handleRequest env cfg now db (Jx.obj kvs) = Except.ok (some resp, db')
      ∧ resp.id = (objGet kvs "id").getD Jx.null := by
  cases hm : objGet kvs "method" with
  | none =>
    refine ⟨⟨(objGet kvs "id").getD Jx.null, none,
      some ⟨-32601, "Method not found: " ++ jsTemplateDisplay none⟩⟩, db, ?_, rfl⟩
    simp [handleRequest, reqGet, hm, Jx.isNull]
  | some v =>
    cases v with
    | str m =>
      by_cases hm1 : m = "notifications/initialized"
      · subst hm1
        exact absurd hm hnotif
      · by_cases hm2 : m = "initialize"
        · subst hm2
          refine ⟨⟨(objGet kvs "id").getD Jx.null, some initializeResult, none⟩, db, ?_, rfl⟩
          simp [handleRequest, reqGet, hm, Jx.isNull]
        · by_cases hm3 : m = "tools/list"
          · subst hm3
            refine ⟨⟨(objGet kvs "id").getD Jx.null,
              some (Jx.obj [("tools", Jx.arr toolsJx)]), none⟩, db, ?_, rfl⟩
            simp [handleRequest, reqGet, hm, Jx.isNull]
          · by_cases hm4 : m = "tools/call"
            · subst hm4
              cases hct : callTool env cfg db now (toolCallNameArg (Jx.obj kvs))
                  (toolCallArgs (Jx.obj kvs)) with
              | ok res =>
                refine ⟨⟨(objGet kvs "id").getD Jx.null, some (Jx.obj [("content",
                  Jx.arr [Jx.obj [("type", Jx.str "text"),
                    ("text", Jx.str (Jx.stringify res.1))]])]), none⟩, res.2, ?_, rfl⟩
                simp [handleRequest, reqGet, hm, hct, Jx.isNull]
              | error msg =>
                refine ⟨⟨(objGet kvs "id").getD Jx.null, none, some ⟨-32000, msg⟩⟩,
                  db, ?_, rfl⟩
                simp [handleRequest, reqGet, hm, hct, Jx.isNull]
            · refine ⟨⟨(objGet kvs "id").getD Jx.null, none,
                some ⟨-32601, "Method not found: " ++ m⟩⟩, db, ?_, rfl⟩
              simp [handleRequest, reqGet, hm, Jx.isNull, hm1, hm2, hm3, hm4]
    | null =>
      refine ⟨⟨(objGet kvs "id").getD Jx.null, none,
        some ⟨-32601, "Method not found: " ++ jsTemplateDisplay (some Jx.null)⟩⟩, db, ?_, rfl⟩
      simp [handleRequest, reqGet, hm, Jx.isNull]
    | bool b =>
      refine ⟨⟨(objGet kvs "id").getD Jx.null, none,
        some ⟨-32601, "Method not found: " ++ jsTemplateDisplay (some (Jx.bool b))⟩⟩, db,
        ?_, rfl⟩
      simp [handleRequest, reqGet, hm, Jx.isNull]
    | num n =>
      refine ⟨⟨(objGet kvs "id").getD Jx.null, none,
        some ⟨-32601, "Method not found: " ++ jsTemplateDisplay (some (Jx.num n))⟩⟩, db,
        ?_, rfl⟩
      simp [handleRequest, reqGet, hm, Jx.isNull]
    | arr items =>
      refine ⟨⟨(objGet kvs "id").getD Jx.null, none,
        some ⟨-32601, "Method not found: " ++ jsTemplateDisplay (some (Jx.arr items))⟩⟩, db,
        ?_, rfl⟩
      simp [handleRequest, reqGet, hm, Jx.isNull]
    | obj kvs2 =>
      refine ⟨⟨(objGet kvs "id").getD Jx.null, none,
        some ⟨-32601, "Method not found: " ++ jsTemplateDisplay (some (Jx.obj kvs2))⟩⟩, db,
        ?_, rfl⟩
      simp [handleRequest, reqGet, hm, Jx.isNull]

/-- A concrete collaborator environment for witness evaluations. -/
def demoEnv : CollabEnv :=
  ⟨fun _ => Except.ok (Jx.arr []), fun _ _ => Except.ok 1, [], fun _ => none⟩

/-- C3: every successfully parsed request that is not a notification yields
exactly one response whose id equals the request's id (`request.id ?? null`),
and a `notifications/initialized` request yields no response at all. -/
theorem C3_one_response_with_same_id (env : CollabEnv) (cfg : AppConfig) (now : Int)
    (db : SessionDb) (kvs kvs2 : List (String × Jx)) (idv : Jx)
    (hid : objGet kvs "id" = some idv)
    (hnotif : objGet kvs "method" ≠ some (Jx.str "notifications/initialized"))
    (hnotif2 : objGet kvs2 "method" = some (Jx.str "notifications/initialized")) :
    (∃ resp db', handleRequest env cfg now db (Jx.obj kvs) = Except.ok (some resp, db')
        ∧ resp.id = idv)
    ∧ handleRequest env cfg now db (Jx.obj kvs2) = Except.ok (none, db) := by
  constructor
  · obtain ⟨resp, db', heq, hidr⟩ := handleRequest_gives_id env cfg now db kvs hnotif
    refine ⟨resp, db', heq, ?_⟩
    rw [hidr, hid]
    rfl
  · simp [handleRequest, reqGet, hnotif2, Jx.isNull]

theorem C3_one_response_with_same_id_witness :
    (∃ resp db', handleRequest demoEnv (demoConfig 5) 0 emptyDb
        (Jx.obj [("jsonrpc", Jx.str "2.0"), ("id", Jx.num 1), ("method", Jx.str "initialize")])
        = Except.ok (some resp, db') ∧ resp.id = Jx.num 1)
    ∧ handleRequest demoEnv (demoConfig 5) 0 emptyDb
        (Jx.obj [("jsonrpc", Jx.str "2.0"), ("method", Jx.str "notifications/initialized")])
        = Except.ok (none, emptyDb) :=
  C3_one_response_with_same_id demoEnv (demoConfig 5) 0 emptyDb
    [("jsonrpc", Jx.str "2.0"), ("id", Jx.num 1), ("method", Jx.str "initialize")]
    [("jsonrpc", Jx.str "2.0"), ("method", Jx.str "notifications/initialized")]
    (Jx.num 1) rfl
    (by
      intro h
      have h2 : Jx.str "initialize" = Jx.str "notifications/initialized" := Option.some.inj h
      injection h2 with h3
      exact absurd h3 (by decide))
    rfl

/-- C4: a request whose string method is none of the four dispatched ones
gets a `-32601` "Method not found" error response; a `tools/call` request
whose handler throws gets a `-32000` error response carrying the failure
message; and for every non-null request `handleRequest` returns normally —
no handler exception propagates (`null` elements are the one input whose
`request.method` access itself throws before dispatch). -/
theorem C4_error_codes (env : CollabEnv) (cfg : AppConfig) (now : Int) (db : SessionDb)
    (kvsA kvsB : List (String × Jx)) (m : String) (msg : String) :
    (objGet kvsA "method" = some (Jx.str m) → m ≠ "initialize" → m ≠ "tools/list" →
      m ≠ "tools/call" → m ≠ "notifications/initialized" →
      handleRequest env cfg now db (Jx.obj kvsA)
        = Except.ok (some ⟨(objGet kvsA "id").getD Jx.null, none,
            some ⟨-32601, "Method not found: " ++ m⟩⟩, db))
    ∧ (objGet kvsB "method" = some (Jx.str "tools/call") →
        callTool env cfg db now (toolCallNameArg (Jx.obj kvsB)) (toolCallArgs (Jx.obj kvsB))
          = Except.error msg →
        handleRequest env cfg now db (Jx.obj kvsB)
          = Except.ok (some ⟨(objGet kvsB "id").getD Jx.null, none, some ⟨-32000, msg⟩⟩, db))
    ∧ (∀ request : Jx, request ≠ Jx.null →
        ∃ out, handleRequest env cfg now db request = Except.ok out) := by
  refine ⟨?_, ?_, ?_⟩
  · intro hm h1 h2 h3 h4
    simp [handleRequest, reqGet, hm, Jx.isNull, h1, h2, h3, h4]
  · intro hm hct
    simp [handleRequest, reqGet, hm, hct, Jx.isNull]
  · intro request hreq
    cases request with
    | null => exact absurd rfl hreq
    | obj kvs =>
      by_cases hn : objGet kvs "method" = some (Jx.str "notifications/initialized")
      · exact ⟨(none, db), by simp [handleRequest, reqGet, hn, Jx.isNull]⟩
      · obtain ⟨resp, db', heq, -⟩ := handleRequest_gives_id env cfg now db kvs hn
        exact ⟨(some resp, db'), heq⟩
    | bool b => exact ⟨_, rfl⟩
    | num n => exact ⟨_, rfl⟩
    | str s => exact ⟨_, rfl⟩
    | arr items => exact ⟨_, rfl⟩

theorem C4_error_codes_witness :
    (handleRequest demoEnv (demoConfig 5) 0 emptyDb
        (Jx.obj [("jsonrpc", Jx.str "2.0"), ("id", Jx.num 3), ("method", Jx.str "foo/bar")])
        = Except.ok (some ⟨Jx.num 3, none,
            some ⟨-32601, "Method not found: " ++ "foo/bar"⟩⟩, emptyDb))
    ∧ (handleRequest demoEnv (demoConfig 5) 0 emptyDb
        (Jx.obj [("jsonrpc", Jx.str "2.0"), ("id", Jx.num 4), ("method", Jx.str "tools/call"),
          ("params", Jx.obj [("name", Jx.str "nope")])])
        = Except.ok (some ⟨Jx.num 4, none,
            some ⟨-32000, "Unknown tool: nope"⟩⟩, emptyDb))
    ∧ (∃ out, handleRequest demoEnv (demoConfig 5) 0 emptyDb
        (Jx.obj [("jsonrpc", Jx.str "2.0"), ("id", Jx.num 3), ("method", Jx.str "foo/bar")])
        = Except.ok out) :=
  ⟨(C4_error_codes demoEnv (demoConfig 5) 0 emptyDb
      [("jsonrpc", Jx.str "2.0"), ("id", Jx.num 3), ("method", Jx.str "foo/bar")]
      [("jsonrpc", Jx.str "2.0"), ("id", Jx.num 4), ("method", Jx.str "tools/call"),
        ("params", Jx.obj [("name", Jx.str "nope")])]
      "foo/bar" "Unknown tool: nope").1 rfl (by decide) (by decide) (by decide) (by decide),
    (C4_error_codes demoEnv (demoConfig 5) 0 emptyDb
      [("jsonrpc", Jx.str "2.0"), ("id", Jx.num 3), ("method", Jx.str "foo/bar")]
      [("jsonrpc", Jx.str "2.0"), ("id", Jx.num 4), ("method", Jx.str "tools/call"),
        ("params", Jx.obj [("name", Jx.str "nope")])]
      "foo/bar" "Unknown tool: nope").2.1 rfl rfl,
    (C4_error_codes demoEnv (demoConfig 5) 0 emptyDb
      [("jsonrpc", Jx.str "2.0"), ("id", Jx.num 3), ("method", Jx.str "foo/bar")]
      [("jsonrpc", Jx.str "2.0"), ("id", Jx.num 4), ("method", Jx.str "tools/call"),
        ("params", Jx.obj [("name", Jx.str "nope")])]
      "foo/bar" "Unknown tool: nope").2.2
      (Jx.obj [("jsonrpc", Jx.str "2.0"), ("id", Jx.num 3), ("method", Jx.str "foo/bar")])
      (fun h => Jx.noConfusion h)⟩

/-! ## C9: missing Telegram credential degrades gracefully -/

/-- The telegram-token requirement of `loadConfig` (src/config.ts, fourth
document of src/unnamed/part_003): the check aborts startup only when
`requireTelegramToken` holds; `runMcpServer` passes
`requireTelegramToken: false`. -/
def loadConfigTokenCheck (envToken : Option String) (requireTelegramToken : Bool) :
    Except String String :=
  let telegramBotToken := envToken.getD ""
  if requireTelegramToken ∧ telegramBotToken = "" then
    Except.error "TELEGRAM_BOT_TOKEN is required"
  else Except.ok telegramBotToken

/-- C9: with an empty Telegram token the server still starts (the
`requireTelegramToken: false` load path never fails on the token), every
`tools/call` to a telegram tool — either alias form — returns the
descriptive configuration failure (which the dispatcher wraps as a `-32000`
error response), and a tool that does not depend on the credential
(`bridge_get_offset`) keeps working. -/
theorem C9_missing_token_degrades (env : CollabEnv) (cfg : AppConfig) (now : Int)
    (db : SessionDb) (args : List (String × Jx)) (kvs : List (String × Jx))
    (htok : cfg.telegramBotToken = "") :
    (∀ envToken, ∃ tok, loadConfigTokenCheck envToken false = Except.ok tok)
    ∧ (∀ name ∈ ["telegram_fetch_updates", "telegram.fetch_updates",
          "telegram_send_message", "telegram.send_message"],
        callTool env cfg db now (some (Jx.str name)) args = Except.error telegramTokenMsg)
    ∧ (objGet kvs "method" = some (Jx.str "tools/call") →
        callTool env cfg db now (toolCallNameArg (Jx.obj kvs)) (toolCallArgs (Jx.obj kvs))
          = Except.error telegramTokenMsg →
        handleRequest env cfg now db (Jx.obj kvs)
          = Except.ok (some ⟨(objGet kvs "id").getD Jx.null, none,
              some ⟨-32000, telegramTokenMsg⟩⟩, db))
    ∧ (callTool env cfg db now (some (Jx.str "bridge_get_offset")) args
        = Except.ok (Jx.obj [("offset", Jx.num (SessionStore.getOffset db))], db)) := by
  have hassert : assertTelegramTokenConfigured cfg = Except.error telegramTokenMsg := by
    unfold assertTelegramTokenConfigured
    rw [htok]
    rfl
  refine ⟨?_, ?_, ?_, ?_⟩
  · intro envToken
    exact ⟨envToken.getD "", by simp [loadConfigTokenCheck]⟩
  · intro name hname
    simp only [List.mem_cons, List.not_mem_nil, or_false] at hname
    rcases hname with rfl | rfl | rfl | rfl
    · simp [callTool, hassert]
    · simp [callTool, hassert]
    · simp [callTool, hassert]
    · simp [callTool, hassert]
  · intro hm hct
    simp [handleRequest, reqGet, hm, hct, Jx.isNull]
  · simp [callTool]

/-- The demo configuration with the optional Telegram credential absent. -/
def cfgNoToken : AppConfig := { demoConfig 5 with telegramBotToken := "" }

theorem C9_missing_token_degrades_witness :
    ((∀ envToken, ∃ tok, loadConfigTokenCheck envToken false = Except.ok tok)
    ∧ (∀ name ∈ ["telegram_fetch_updates", "telegram.fetch_updates",
          "telegram_send_message", "telegram.send_message"],
        callTool demoEnv cfgNoToken emptyDb 0 (some (Jx.str name)) []
          = Except.error telegramTokenMsg)
    ∧ (objGet [("jsonrpc", Jx.str "2.0"), ("id", Jx.num 9), ("method", Jx.str "tools/call"),
          ("params", Jx.obj [("name", Jx.str "telegram_send_message")])] "method"
          = some (Jx.str "tools/call") →
        callTool demoEnv cfgNoToken emptyDb 0
          (toolCallNameArg (Jx.obj [("jsonrpc", Jx.str "2.0"), ("id", Jx.num 9),
            ("method", Jx.str "tools/call"),
            ("params", Jx.obj [("name", Jx.str "telegram_send_message")])]))
          (toolCallArgs (Jx.obj [("jsonrpc", Jx.str "2.0"), ("id", Jx.num 9),
            ("method", Jx.str "tools/call"),
            ("params", Jx.obj [("name", Jx.str "telegram_send_message")])]))
          = Except.error telegramTokenMsg →
        handleRequest demoEnv cfgNoToken 0 emptyDb
          (Jx.obj [("jsonrpc", Jx.str "2.0"), ("id", Jx.num 9), ("method", Jx.str "tools/call"),
            ("params", Jx.obj [("name", Jx.str "telegram_send_message")])])
          = Except.ok (some ⟨Jx.num 9, none, some ⟨-32000, telegramTokenMsg⟩⟩, emptyDb))
    ∧ (callTool demoEnv cfgNoToken emptyDb 0 (some (Jx.str "bridge_get_offset")) []
        = Except.ok (Jx.obj [("offset", Jx.num (SessionStore.getOffset emptyDb))], emptyDb))) :=
  C9_missing_token_degrades demoEnv cfgNoToken 0 emptyDb []
    [("jsonrpc", Jx.str "2.0"), ("id", Jx.num 9), ("method", Jx.str "tools/call"),
      ("params", Jx.obj [("name", Jx.str "telegram_send_message")])]
    rfl

/-! ## C5: response wire encoding -/

/-- The emission rule as the spec words it: no response, nothing; exactly
one response, unwrapped; several responses from an array payload, one JSON
array. -/
def specEmission (mode : RpcTransportMode) (payload : Jx)
    (responses : List RpcResponse) : List String :=
  match responses with
  | [] => []
  | [r] => [writeResponse (Sum.inl r) mode]
  | r :: rs =>
    if payloadIsArr payload then [writeResponse (Sum.inr (r :: rs)) mode]
    else [writeResponse (Sum.inl r) mode]

/-- C5: the emitted bytes of a processed payload use the payload's own wire
mode and follow the spec's aggregation rule (`specEmission`): an array
payload that produced more than one response is emitted as a single JSON
array, a single response is emitted unwrapped; a non-array payload can never
produce more than one response; framed emission is
`Content-Length: <n>\r\n\r\n<body>` with `n` the UTF-8 byte count of the
body, and bare emission is `<body>\n`. -/
theorem C5_wire_encoding (env : CollabEnv) (cfg : AppConfig) (now : Int) (payload : Jx)
    (mode : RpcTransportMode) (db db' : SessionDb) (responses : List RpcResponse)
    (h : processRequests env cfg now (toRequests payload) db []
      = Except.ok (responses, db')) :
    (handleIncomingPayload env cfg now payload mode db
      = Except.ok (db', specEmission mode payload responses))
    ∧ (payloadIsArr payload = false → responses.length ≤ 1)
    ∧ (∀ r : RpcResponse,
        writeResponse (Sum.inl r) RpcTransportMode.framed
          = "Content-Length: "
            ++ String.mk (natToDecimalL (utf8Encode (Jx.stringify r.toJx)).length)
            ++ "\r\n\r\n" ++ Jx.stringify r.toJx
        ∧ writeResponse (Sum.inl r) RpcTransportMode.jsonl
          = Jx.stringify r.toJx ++ "\n") := by
  refine ⟨?_, ?_, fun r => ⟨rfl, rfl⟩⟩
  · unfold handleIncomingPayload
    rw [h]
    clear h
    cases responses with
    | nil => rfl
    | cons r rs =>
      cases rs with
      | nil => simp [specEmission]
      | cons r2 rs2 =>
        cases hpa : payloadIsArr payload with
        | true => simp [hpa, specEmission]
        | false => simp [hpa, specEmission]
  · intro hpa
    have hreq : toRequests payload = [payload] := by
      cases payload with
      | arr items => simp [payloadIsArr] at hpa
      | null => rfl
      | bool b => rfl
      | num n => rfl
      | str s => rfl
      | obj kvs => rfl
    rw [hreq] at h
    cases hh : handleRequest env cfg now db payload with
    | error e =>
      rw [show processRequests env cfg now [payload] db []
          = Except.error e by simp [processRequests, hh]] at h
      cases h
    | ok out =>
      obtain ⟨ro, db2⟩ := out
      cases ro with
      | some r =>
        rw [show processRequests env cfg now [payload] db []
            = Except.ok ([r], db2) by simp [processRequests, hh]] at h
        cases h
        simp
      | none =>
        rw [show processRequests env cfg now [payload] db []
            = Except.ok ([], db2) by simp [processRequests, hh]] at h
        cases h
        simp

theorem C5_wire_encoding_witness :
    (handleIncomingPayload demoEnv (demoConfig 5) 0
        (Jx.obj [("jsonrpc", Jx.str "2.0"), ("id", Jx.num 1), ("method", Jx.str "x")])
        RpcTransportMode.jsonl emptyDb
      = Except.ok (emptyDb,
          specEmission RpcTransportMode.jsonl
            (Jx.obj [("jsonrpc", Jx.str "2.0"), ("id", Jx.num 1), ("method", Jx.str "x")])
            [⟨Jx.num 1, none, some ⟨-32601, "Method not found: x"⟩⟩]))
    ∧ (payloadIsArr (Jx.obj [("jsonrpc", Jx.str "2.0"), ("id", Jx.num 1),
          ("method", Jx.str "x")]) = false →
        ([(⟨Jx.num 1, none, some ⟨-32601, "Method not found: x"⟩⟩ : RpcResponse)]).length ≤ 1)
    ∧ (∀ r : RpcResponse,
        writeResponse (Sum.inl r) RpcTransportMode.framed
          = "Content-Length: "
            ++ String.mk (natToDecimalL (utf8Encode (Jx.stringify r.toJx)).length)
            ++ "\r\n\r\n" ++ Jx.stringify r.toJx
        ∧ writeResponse (Sum.inl r) RpcTransportMode.jsonl
          = Jx.stringify r.toJx ++ "\n") :=
  C5_wire_encoding demoEnv (demoConfig 5) 0
    (Jx.obj [("jsonrpc", Jx.str "2.0"), ("id", Jx.num 1), ("method", Jx.str "x")])
    RpcTransportMode.jsonl emptyDb emptyDb
    [⟨Jx.num 1, none, some ⟨-32601, "Method not found: x"⟩⟩] rfl

/-! ## Stream framer (drainInputBuffer and helpers, src/mcpServer.ts) -/

/-- The Unicode replacement character. -/
def replacementChar : Char := Char.ofNat 0xFFFD

def isContByte (b : Nat) : Bool := decide (128 ≤ b) && decide (b < 192)

/-- Lossy UTF-8 decoding (`buffer.toString('utf8')`), fuel-based for kernel
reducibility (each step consumes at least one byte, so fuel = length is
always enough).  Overlong/surrogate rejection is not modelled: every buffer
this analysis decodes is either pure ASCII or the exact UTF-8 encoding of a
string. -/
def utf8DecodeLossyF : Nat -> List Nat -> List Char
  | 0, _ => []
  | _, [] => []
  | fuel + 1, b :: rest =>
    if b < 128 then Char.ofNat b :: utf8DecodeLossyF fuel rest
    else if 192 <= b && b < 224 then
      match rest with
      | c1 :: rest2 =>
          if isContByte c1 then
            Char.ofNat ((b - 192) * 64 + (c1 - 128)) :: utf8DecodeLossyF fuel rest2
          else replacementChar :: utf8DecodeLossyF fuel rest
      | [] => [replacementChar]
    else if 224 <= b && b < 240 then
      match rest with
      | c1 :: c2 :: rest2 =>
          if isContByte c1 && isContByte c2 then
            Char.ofNat (((b - 224) * 64 + (c1 - 128)) * 64 + (c2 - 128))
              :: utf8DecodeLossyF fuel rest2
          else replacementChar :: utf8DecodeLossyF fuel rest
      | _ => replacementChar :: utf8DecodeLossyF fuel rest
    else if 240 <= b && b < 248 then
      match rest with
      | c1 :: c2 :: c3 :: rest2 =>
          if isContByte c1 && isContByte c2 && isContByte c3 then
            Char.ofNat ((((b - 240) * 64 + (c1 - 128)) * 64 + (c2 - 128)) * 64 + (c3 - 128))
              :: utf8DecodeLossyF fuel rest2
          else replacementChar :: utf8DecodeLossyF fuel rest
      | _ => replacementChar :: utf8DecodeLossyF fuel rest
    else replacementChar :: utf8DecodeLossyF fuel rest

def utf8DecodeLossy (l : List Nat) : List Char := utf8DecodeLossyF l.length l

/-- Length of the /\r?\n\r?\n/ match anchored at the head of the byte list
(13 = CR, 10 = LF); the regex's greedy `\r?` prefers the longer forms. -/
def sepMatchLenAt (l : List Nat) : Option Nat :=
  match l with
  | [] => none
  | [_] => none
  | b1 :: b2 :: rest =>
    if b1 = 13 then
      if b2 = 10 then
        match rest with
        | [] => none
        | b3 :: rest2 =>
          if b3 = 13 then
            match rest2 with
            | b4 :: _ => if b4 = 10 then some 4 else none
            | [] => none
          else if b3 = 10 then some 3
          else none
      else none
    else if b1 = 10 then
      if b2 = 13 then
        match rest with
        | b3 :: _ => if b3 = 10 then some 3 else none
        | [] => none
      else if b2 = 10 then some 2
      else none
    else none

/-- `findHeaderSeparator`: the source decodes the buffer to UTF-8 text,
runs /\r?\n\r?\n/ on the TEXT, and then slices the BYTE buffer with the
match's CHARACTER index.  This model scans the bytes directly (13 = CR,
10 = LF) and returns the byte index of the leftmost match together with
the code's collapsed length (`separatorMatch[0].length === 4 ? 4 : 2`; a
length-3 match is treated as 2).  Character and byte index agree exactly
when every byte before the match is ASCII — the regime of every theorem
below that uses the `some` case (all carry ASCII-header hypotheses; the
agreement is proven for fully ASCII buffers in
`findHeaderSeparator_chars_agree`).  When non-ASCII text precedes the
separator the source's character-index slicing misaligns the body — one of
the two failure modes recorded in C1's correction.  The `none` cases
always coincide: multi-byte UTF-8 sequences contain no CR/LF bytes and
lossy decoding never produces CR/LF characters from them. -/
def findHeaderSeparator : List Nat → Option (Nat × Nat)
  | [] => none
  | b :: rest =>
    match sepMatchLenAt (b :: rest) with
    | some l => some (0, if l = 4 then 4 else 2)
    | none =>
      match findHeaderSeparator rest with
      | some (i, l) => some (i + 1, l)
      | none => none

/-- `header.split(/\r?\n/)`. -/
def splitLinesCR (l : List Char) : List (List Char) :=
  match l with
  | [] => [[]]
  | '\r' :: '\n' :: rest => [] :: splitLinesCR rest
  | '\n' :: rest => [] :: splitLinesCR rest
  | c :: rest =>
    match splitLinesCR rest with
    | [] => [[c]]
    | line :: ls => (c :: line) :: ls

/-- One line against /^\s*content-length\s*:\s*(\d+)\s*$/i, returning the
captured number. -/
def parseContentLengthLine (l : List Char) : Option Nat :=
  let l1 := l.dropWhile jsWsChar
  if lowerEqList (l1.take 14) "content-length".toList then
    match l1.drop 14 with
    | rest0 =>
      match rest0.dropWhile jsWsChar with
      | ':' :: l3 =>
        let l4 := l3.dropWhile jsWsChar
        let p := takeDigits l4
        if !p.1.isEmpty && (p.2.dropWhile jsWsChar).isEmpty then
          some (decimalToNatL p.1)
        else none
      | _ => none
  else none

/-- The `.split(/\r?\n/).map(line => line.match(...)).find(Boolean)` chain:
the first header line carrying a Content-Length value. -/
def findContentLength (headerText : List Char) : Option Nat :=
  ((splitLinesCR headerText).map parseContentLengthLine).findSome? id

/-- `tryReadBareJsonRequest`: parse the whole trimmed text, falling back to
the first line; a success reports the consumed byte count. -/
def tryReadBareJsonRequest (buffer : List Nat) : Option (Jx × Nat) :=
  let text := utf8DecodeLossy buffer
  let trimmed := jsTrimL text
  if trimmed.isEmpty then none
  else
    let parseCandidate : List Char → Nat → Option (Jx × Nat) := fun cand consumed =>
      match jsonParse (String.mk cand) with
      | some v => if isRpcPayload v then some (v, consumed) else none
      | none => none
    match parseCandidate trimmed (utf8Encode (String.mk text)).length with
    | some r => some r
    | none =>
      if text.contains '\n' then
        let firstLinePart := text.takeWhile (fun c => !(c == '\n'))
        let firstLine := jsTrimL firstLinePart
        if !firstLine.isEmpty then
          parseCandidate firstLine (utf8Encode (String.mk (firstLinePart ++ ['\n']))).length
        else none
      else none

/-- One pass of the `while (true)` body of `drainInputBuffer`, at the
framing level: consume a framed or bare payload, skip a header block with no
Content-Length header, stop (incomplete data — nothing consumed), or abort
(JSON.parse of a framed body threw; the catch ends the drain with the frame
already consumed). -/
inductive DrainStep where
  | payload : List Nat → Jx → RpcTransportMode → DrainStep
  | skip : List Nat → DrainStep
  | stop : DrainStep
  | abort : List Nat → DrainStep

def drainStep (buffer : List Nat) : DrainStep :=
  match findHeaderSeparator buffer with
  | none =>
    match tryReadBareJsonRequest buffer with
    | none => DrainStep.stop
    | some (payload, consumed) =>
        DrainStep.payload (buffer.drop consumed) payload RpcTransportMode.jsonl
  | some (index, length) =>
    let header := utf8DecodeLossy (buffer.take index)
    match findContentLength header with
    | none => DrainStep.skip (buffer.drop (index + length))
    | some len =>
      let bodyStart := index + length
      let bodyEnd := bodyStart + len
      if buffer.length < bodyEnd then DrainStep.stop
      else
        let body := utf8DecodeLossy ((buffer.take bodyEnd).drop bodyStart)
        match jsonParse (String.mk body) with
        | some payload => DrainStep.payload (buffer.drop bodyEnd) payload RpcTransportMode.framed
        | none => DrainStep.abort (buffer.drop bodyEnd)

/-- The drain loop; the fuel only drives structural recursion — every
continuing iteration consumes at least one byte, so `length + 1` (used by
`drainInputBuffer` below) is always enough.  Returns the remaining buffer
and the payloads handed to `handleIncomingPayload`, with their transport
modes, in order. -/
def drainLoop : Nat → List Nat → List Nat × List (Jx × RpcTransportMode)
  | 0, buffer => (buffer, [])
  | fuel + 1, buffer =>
    match drainStep buffer with
    | DrainStep.stop => (buffer, [])
    | DrainStep.abort buf2 => (buf2, [])
    | DrainStep.skip buf2 => drainLoop fuel buf2
    | DrainStep.payload buf2 payload mode =>
      let r := drainLoop fuel buf2
      (r.1, (payload, mode) :: r.2)

/-- `drainInputBuffer` at the framing level. -/
def drainInputBuffer (buffer : List Nat) : List Nat × List (Jx × RpcTransportMode) :=
  drainLoop (buffer.length + 1) buffer

/-- A sequence of `stdin` `data` events: each chunk is appended to the
buffer and the drain loop runs to completion before the next chunk arrives
(the `processing` flag makes a chunk arriving mid-drain equivalent to this
sequential schedule: the in-flight loop sees the appended bytes on its next
iteration). -/
def feedStep (st : List Nat × List (Jx × RpcTransportMode)) (chunk : List Nat) :
    List Nat × List (Jx × RpcTransportMode) :=
  let r := drainInputBuffer (st.1 ++ chunk)
  (r.1, st.2 ++ r.2)

def feedChunks (chunks : List (List Nat)) : List Nat × List (Jx × RpcTransportMode) :=
  chunks.foldl feedStep ([], [])

/-! ### Valid framed requests -/

def eolChars (crlf : Bool) : List Char := if crlf then ['\r', '\n'] else ['\n']

def eolBytes (crlf : Bool) : List Nat := if crlf then [13, 10] else [10]

/-- Header lines joined (not terminated) by the end-of-line sequence. -/
def joinLines (eol : List Char) : List (List Char) → List Char
  | [] => []
  | [l] => l
  | l :: ls => l ++ (eol ++ joinLines eol ls)

def joinBytes (eol : List Nat) : List (List Nat) → List Nat
  | [] => []
  | [l] => l
  | l :: ls => l ++ (eol ++ joinBytes eol ls)

/-- A framed request on the wire: header lines, a uniform end-of-line
convention, and the body text. -/
structure FramedRequest where
  headerLines : List (List Char)
  crlf : Bool
  bodyText : String

def frameHeaderText (f : FramedRequest) : List Char :=
  joinLines (eolChars f.crlf) f.headerLines

def frameHeaderBytes (f : FramedRequest) : List Nat :=
  (frameHeaderText f).map Char.toNat

def frameSepBytes (f : FramedRequest) : List Nat :=
  eolBytes f.crlf ++ eolBytes f.crlf

def frameBytes (f : FramedRequest) : List Nat :=
  frameHeaderBytes f ++ frameSepBytes f ++ utf8Encode f.bodyText

/-- A header line: nonempty ASCII, no CR/LF, and none of the characters the
JSON value grammar could open a payload with. -/
def HeaderLineOk (line : List Char) : Prop :=
  line ≠ [] ∧ ∀ c ∈ line, c.toNat < 128 ∧ c ≠ '\r' ∧ c ≠ '\n' ∧ c ≠ lbraceChar ∧ c ≠ '['

/-- Syntactic validity of a framed request: a nonempty header block whose
first Content-Length line counts the UTF-8 bytes of the body. -/
def ValidFrame (f : FramedRequest) : Prop :=
  f.headerLines ≠ [] ∧ (∀ line ∈ f.headerLines, HeaderLineOk line)
    ∧ findContentLength (frameHeaderText f) = some (utf8Encode f.bodyText).length

/-! ### Decoding lemmas -/

theorem utf8DecodeLossyF_nil (fuel : Nat) : utf8DecodeLossyF fuel [] = [] := by
  cases fuel <;> rfl

theorem utf8DecodeLossyF_ascii (fuel : Nat) (l : List Nat)
    (hlen : l.length ≤ fuel) (hascii : ∀ b ∈ l, b < 128) :
    utf8DecodeLossyF fuel l = l.map Char.ofNat := by
  induction fuel generalizing l with
  | zero =>
    cases l with
    | nil => rfl
    | cons b rest => simp at hlen
  | succ n ih =>
    cases l with
    | nil => rfl
    | cons b rest =>
      have hb : b < 128 := hascii b (List.mem_cons_self b rest)
      simp only [utf8DecodeLossyF, if_pos hb, List.map_cons]
      have hlen2 : rest.length ≤ n := by
        simp only [List.length_cons] at hlen
        omega
      have := ih rest hlen2 (fun x hx => hascii x (List.mem_cons_of_mem b hx))
      rw [this]

theorem utf8DecodeLossy_ascii (l : List Nat) (hascii : ∀ b ∈ l, b < 128) :
    utf8DecodeLossy l = l.map Char.ofNat :=
  utf8DecodeLossyF_ascii l.length l le_rfl hascii

theorem utf8DecodeLossy_map_toNat (cs : List Char) (h : ∀ c ∈ cs, c.toNat < 128) :
    utf8DecodeLossy (cs.map Char.toNat) = cs := by
  rw [utf8DecodeLossy_ascii]
  · have hh : ∀ c ∈ cs, (Char.ofNat ∘ Char.toNat) c = c := fun c hc => by
      simp [Function.comp, Char.ofNat_toNat]
    rw [List.map_map, List.map_congr_left hh]
    simp
  · intro b hb
    rcases List.mem_map.mp hb with ⟨c, hc, rfl⟩
    exact h c hc

/-- Decoding one encoded character consumes one unit of fuel. -/
theorem utf8DecodeLossyF_encodeChar (fuel : Nat) (c : Char) (t : List Nat) :
    utf8DecodeLossyF (fuel + 1) (utf8EncodeChar c.toNat ++ t)
      = c :: utf8DecodeLossyF fuel t := by
  have hvalid : c.toNat < 1114112 := by
    rcases c.valid with h | h
    · exact Nat.lt_trans h (by norm_num)
    · exact h.2
  by_cases h1 : c.toNat < 128
  · simp only [utf8EncodeChar, if_pos h1, List.cons_append, List.nil_append,
      utf8DecodeLossyF, if_pos h1, Char.ofNat_toNat]
  · by_cases h2 : c.toNat < 2048
    · simp only [utf8EncodeChar, if_neg h1, if_pos h2, List.cons_append, List.nil_append]
      have hb1 : ¬(192 + c.toNat / 64 < 128) := by omega
      have hr1 : (decide (192 ≤ 192 + c.toNat / 64) && decide (192 + c.toNat / 64 < 224)) = true := by
        simp only [Bool.and_eq_true, decide_eq_true_eq]
        omega
      have hcont : isContByte (128 + c.toNat % 64) = true := by
        simp only [isContByte, Bool.and_eq_true, decide_eq_true_eq]
        omega
      simp only [utf8DecodeLossyF, if_neg hb1, hr1, if_pos, hcont, if_true]
      have : (192 + c.toNat / 64 - 192) * 64 + (128 + c.toNat % 64 - 128) = c.toNat := by
        omega
      rw [this, Char.ofNat_toNat]
    · by_cases h3 : c.toNat < 65536
      · simp only [utf8EncodeChar, if_neg h1, if_neg h2, if_pos h3, List.cons_append,
          List.nil_append]
        have hb1 : ¬(224 + c.toNat / 4096 < 128) := by omega
        have hr1 : (decide (192 ≤ 224 + c.toNat / 4096) && decide (224 + c.toNat / 4096 < 224)) = false := by
          simp only [Bool.and_eq_false_iff, decide_eq_false_iff_not]
          omega
        have hr2 : (decide (224 ≤ 224 + c.toNat / 4096) && decide (224 + c.toNat / 4096 < 240)) = true := by
          simp only [Bool.and_eq_true, decide_eq_true_eq]
          omega
        have hcont : (isContByte (128 + c.toNat / 64 % 64) && isContByte (128 + c.toNat % 64)) = true := by
          simp only [isContByte, Bool.and_eq_true, decide_eq_true_eq]
          omega
        simp only [utf8DecodeLossyF, if_neg hb1, hr1, Bool.false_eq_true, if_false, hr2,
          if_true, hcont]
        have : ((224 + c.toNat / 4096 - 224) * 64 + (128 + c.toNat / 64 % 64 - 128)) * 64
            + (128 + c.toNat % 64 - 128) = c.toNat := by
          omega
        rw [this, Char.ofNat_toNat]
      · simp only [utf8EncodeChar, if_neg h1, if_neg h2, if_neg h3, List.cons_append,
          List.nil_append]
        have hb1 : ¬(240 + c.toNat / 262144 < 128) := by omega
        have hr1 : (decide (192 ≤ 240 + c.toNat / 262144) && decide (240 + c.toNat / 262144 < 224)) = false := by
          simp only [Bool.and_eq_false_iff, decide_eq_false_iff_not]
          omega
        have hr2 : (decide (224 ≤ 240 + c.toNat / 262144) && decide (240 + c.toNat / 262144 < 240)) = false := by
          simp only [Bool.and_eq_false_iff, decide_eq_false_iff_not]
          omega
        have hr3 : (decide (240 ≤ 240 + c.toNat / 262144) && decide (240 + c.toNat / 262144 < 248)) = true := by
          simp only [Bool.and_eq_true, decide_eq_true_eq]
          omega
        have hcont : (isContByte (128 + c.toNat / 4096 % 64) && isContByte (128 + c.toNat / 64 % 64)
            && isContByte (128 + c.toNat % 64)) = true := by
          simp only [isContByte, Bool.and_eq_true, decide_eq_true_eq]
          omega
        simp only [utf8DecodeLossyF, if_neg hb1, hr1, Bool.false_eq_true, if_false, hr2, hr3,
          if_true, hcont]
        have : (((240 + c.toNat / 262144 - 240) * 64 + (128 + c.toNat / 4096 % 64 - 128)) * 64
            + (128 + c.toNat / 64 % 64 - 128)) * 64 + (128 + c.toNat % 64 - 128) = c.toNat := by
          omega
        rw [this, Char.ofNat_toNat]

theorem utf8DecodeLossyF_encode_append (cs : List Char) (fuel : Nat) (t : List Nat) :
    utf8DecodeLossyF (cs.length + fuel) ((cs.map (fun c => utf8EncodeChar c.toNat)).flatten ++ t)
      = cs ++ utf8DecodeLossyF fuel t := by
  induction cs generalizing fuel with
  | nil => simp
  | cons c cs ih =>
    have harith : (c :: cs).length + fuel = (cs.length + fuel) + 1 := by
      simp [List.length_cons]
      omega
    rw [harith, List.map_cons, List.flatten_cons, List.append_assoc,
      utf8DecodeLossyF_encodeChar, ih, List.cons_append]

theorem length_utf8EncodeChar_pos (n : Nat) : 0 < (utf8EncodeChar n).length := by
  unfold utf8EncodeChar
  split
  · simp
  · split
    · simp
    · split <;> simp

theorem length_le_length_utf8Encode (s : String) :
    s.toList.length ≤ (utf8Encode s).length := by
  unfold utf8Encode
  induction s.toList with
  | nil => simp
  | cons c cs ih =>
    rw [List.map_cons, List.flatten_cons, List.length_append, List.length_cons]
    have := length_utf8EncodeChar_pos c.toNat
    omega

/-- Decoding inverts encoding. -/
theorem utf8DecodeLossy_utf8Encode (s : String) :
    utf8DecodeLossy (utf8Encode s) = s.toList := by
  unfold utf8DecodeLossy
  have hle := length_le_length_utf8Encode s
  rcases Nat.exists_eq_add_of_le hle with ⟨k, hk⟩
  have henc : utf8Encode s = (s.toList.map (fun c => utf8EncodeChar c.toNat)).flatten ++ [] := by
    simp [utf8Encode]
  rw [hk, henc, utf8DecodeLossyF_encode_append, utf8DecodeLossyF_nil, List.append_nil]

/-! ### Separator scanning lemmas -/

theorem sepMatchLenAt_none_of_head (b : Nat) (rest : List Nat)
    (h13 : b ≠ 13) (h10 : b ≠ 10) : sepMatchLenAt (b :: rest) = none := by
  cases rest with
  | nil => rfl
  | cons b2 r2 => simp [sepMatchLenAt, h13, h10]

theorem sepMatchLenAt_lf_junction (c : Nat) (rest : List Nat)
    (h13 : c ≠ 13) (h10 : c ≠ 10) : sepMatchLenAt (10 :: c :: rest) = none := by
  simp [sepMatchLenAt, h13, h10]

theorem sepMatchLenAt_crlf_junction (c : Nat) (rest : List Nat)
    (h13 : c ≠ 13) (h10 : c ≠ 10) : sepMatchLenAt (13 :: 10 :: c :: rest) = none := by
  simp [sepMatchLenAt, h13, h10]

/-- A match is determined by its own bytes: appending more bytes preserves
it with the same length. -/
theorem sepMatchLenAt_append (P ext : List Nat) (L : Nat)
    (h : sepMatchLenAt P = some L) : sepMatchLenAt (P ++ ext) = some L := by
  unfold sepMatchLenAt at h
  split at h
  · exact absurd h (by simp)
  · exact absurd h (by simp)
  · rw [List.cons_append, List.cons_append]
    repeat' split at h
    all_goals first
      | (injection h with hL
         subst hL
         subst_vars
         simp [sepMatchLenAt, List.cons_append])
      | (exact absurd h (by simp))

theorem findHeaderSeparator_eq_none (l : List Nat)
    (h : ∀ k, sepMatchLenAt (l.drop k) = none) : findHeaderSeparator l = none := by
  induction l with
  | nil => rfl
  | cons b rest ih =>
    have h0 : sepMatchLenAt (b :: rest) = none := h 0
    have hrec : findHeaderSeparator rest = none := ih (fun k => h (k + 1))
    unfold findHeaderSeparator
    rw [h0, hrec]

theorem findHeaderSeparator_eq_some (l : List Nat) (i L : Nat)
    (hi : sepMatchLenAt (l.drop i) = some L)
    (hnone : ∀ k, k < i → sepMatchLenAt (l.drop k) = none) :
    findHeaderSeparator l = some (i, if L = 4 then 4 else 2) := by
  induction l generalizing i with
  | nil =>
    rw [List.drop_nil] at hi
    exact absurd hi (by simp [sepMatchLenAt])
  | cons b rest ih =>
    cases i with
    | zero =>
      unfold findHeaderSeparator
      rw [List.drop_zero] at hi
      rw [hi]
    | succ j =>
      have h0 : sepMatchLenAt (b :: rest) = none := hnone 0 (Nat.succ_pos j)
      have hrec : findHeaderSeparator rest = some (j, if L = 4 then 4 else 2) :=
        ih j hi (fun k hk => hnone (k + 1) (Nat.succ_lt_succ hk))
      unfold findHeaderSeparator
      rw [h0, hrec]

/-- No separator match can start inside a block of non-newline bytes. -/
theorem sepMatchLenAt_drop_block (l : List Nat) (k : Nat) (hk : k < l.length)
    (suffix : List Nat) (hmem : ∀ b ∈ l, b ≠ 13 ∧ b ≠ 10) :
    sepMatchLenAt ((l ++ suffix).drop k) = none := by
  rw [List.drop_append_eq_append_drop]
  have hz : k - l.length = 0 := by omega
  rw [hz, List.drop_zero, List.drop_eq_getElem_cons hk, List.cons_append]
  have hb := hmem (l[k]) (List.getElem_mem hk)
  exact sepMatchLenAt_none_of_head _ _ hb.1 hb.2

theorem joinBytes_cons_head (eolB : List Nat) (l2 : List Nat) (ls : List (List Nat))
    (h : l2 ≠ []) : ∃ c t, joinBytes eolB (l2 :: ls) = c :: t ∧ c ∈ l2 := by
  rcases List.exists_cons_of_ne_nil h with ⟨c, t0, rfl⟩
  cases ls with
  | nil => exact ⟨c, t0, rfl, List.mem_cons_self c t0⟩
  | cons l3 ls2 =>
    refine ⟨c, t0 ++ (eolB ++ joinBytes eolB (l3 :: ls2)), ?_, List.mem_cons_self c t0⟩
    simp [joinBytes]

/-- No separator match starts strictly inside the joined header block (line
bytes exclude CR/LF; junctions are followed by the next line's first byte). -/
theorem joinBytes_no_sep (eolB : List Nat) (heol : eolB = [10] ∨ eolB = [13, 10])
    (lines : List (List Nat))
    (hlines : ∀ l ∈ lines, l ≠ [] ∧ ∀ b ∈ l, b ≠ 13 ∧ b ≠ 10)
    (suffix : List Nat) (k : Nat) (hk : k < (joinBytes eolB lines).length) :
    sepMatchLenAt ((joinBytes eolB lines ++ suffix).drop k) = none := by
  induction lines generalizing suffix k with
  | nil => simp [joinBytes] at hk
  | cons l ls ih =>
    cases ls with
    | nil =>
      have hl := hlines l (List.mem_cons_self l [])
      exact sepMatchLenAt_drop_block l k (by simpa [joinBytes] using hk) suffix hl.2
    | cons l2 ls2 =>
      have hl := hlines l (List.mem_cons_self l (l2 :: ls2))
      have hl2 := hlines l2 (List.mem_cons_of_mem l (List.mem_cons_self l2 ls2))
      have hj : joinBytes eolB (l :: l2 :: ls2) = l ++ (eolB ++ joinBytes eolB (l2 :: ls2)) := by
        simp [joinBytes]
      rcases joinBytes_cons_head eolB l2 ls2 hl2.1 with ⟨c, t, hJ, hcmem⟩
      have hc := hl2.2 c hcmem
      by_cases hk1 : k < l.length
      · rw [hj, List.append_assoc]
        exact sepMatchLenAt_drop_block l k hk1 _ hl.2
      · by_cases hk2 : k < l.length + eolB.length
        · rw [hj, List.append_assoc, List.append_assoc, List.drop_append_eq_append_drop]
          have hdl : l.drop k = [] := List.drop_eq_nil_of_le (by omega)
          rw [hdl, List.nil_append, List.drop_append_eq_append_drop]
          have hz2 : k - l.length - eolB.length = 0 := by omega
          rw [hz2, List.drop_zero, hJ]
          rcases heol with he | he
          · have hj0 : k - l.length = 0 := by
              rw [he] at hk2
              simp only [List.length_cons, List.length_nil] at hk2
              omega
            rw [he, hj0, List.drop_zero]
            simp only [List.cons_append, List.nil_append]
            exact sepMatchLenAt_lf_junction c _ hc.1 hc.2
          · have hj01 : k - l.length = 0 ∨ k - l.length = 1 := by
              rw [he] at hk2
              simp only [List.length_cons, List.length_nil] at hk2
              omega
            rw [he]
            rcases hj01 with h | h
            · rw [h, List.drop_zero]
              simp only [List.cons_append, List.nil_append]
              exact sepMatchLenAt_crlf_junction c _ hc.1 hc.2
            · rw [h, show List.drop 1 [13, 10] = [10] from rfl]
              simp only [List.cons_append, List.nil_append]
              exact sepMatchLenAt_lf_junction c _ hc.1 hc.2
        · have hklen : k - (l.length + eolB.length) < (joinBytes eolB (l2 :: ls2)).length := by
            rw [hj] at hk
            simp only [List.length_append] at hk
            omega
          have hrec := ih (fun x hx => hlines x (List.mem_cons_of_mem l hx))
            suffix (k - (l.length + eolB.length)) hklen
          rw [hj, List.append_assoc, List.append_assoc, List.drop_append_eq_append_drop]
          have hdl : l.drop k = [] := List.drop_eq_nil_of_le (by omega)
          rw [hdl, List.nil_append, List.drop_append_eq_append_drop]
          have hde : eolB.drop (k - l.length) = [] := List.drop_eq_nil_of_le (by omega)
          rw [hde, List.nil_append]
          have harith : k - l.length - eolB.length = k - (l.length + eolB.length) := by omega
          rw [harith]
          exact hrec

/-! ### The bare-JSON heuristic cannot fire on header text -/

theorem parseItems_arr (fuel : Nat) :
    ∀ (acc : List Jx) (input : List Char) (v : Jx) (r : List Char),
      parseItems fuel acc input = some (v, r) → ∃ items, v = Jx.arr items := by
  induction fuel with
  | zero => intro acc input v r h; exact absurd h (by simp [parseItems])
  | succ n ih =>
    intro acc input v r h
    unfold parseItems at h
    split at h
    · exact absurd h (by simp)
    · rename_i v1 r1 heq
      split at h
      · exact ih _ _ _ _ h
      · split at h
        · injection h with h2
          injection h2 with h3 h4
          exact ⟨_, h3.symm⟩
        · exact absurd h (by simp)
      · exact absurd h (by simp)

theorem parseMembers_obj (fuel : Nat) :
    ∀ (acc : List (String × Jx)) (input : List Char) (v : Jx) (r : List Char),
      parseMembers fuel acc input = some (v, r) → ∃ kvs, v = Jx.obj kvs := by
  induction fuel with
  | zero => intro acc input v r h; exact absurd h (by simp [parseMembers])
  | succ n ih =>
    intro acc input v r h
    unfold parseMembers at h
    repeat' split at h
    all_goals first
      | (exact ih _ _ _ _ h)
      | (injection h with h2
         injection h2 with h3 h4
         exact ⟨_, h3.symm⟩)
      | (exact absurd h (by simp))

/-- A parse producing an object or array starts (after whitespace) with the
corresponding opening bracket. -/
theorem parseVal_open_head (fuel : Nat) :
    ∀ (input : List Char) (v : Jx) (r : List Char),
      parseVal fuel input = some (v, r) →
      ((∃ kvs, v = Jx.obj kvs) ∨ (∃ its, v = Jx.arr its)) →
      ∃ t, skipWs input = lbraceChar :: t ∨ skipWs input = '[' :: t := by
  cases fuel with
  | zero => intro input v r h hv; exact absurd h (by simp [parseVal])
  | succ n =>
    intro input v r h hv
    unfold parseVal at h
    split at h
    · exact absurd h (by simp)
    · rename_i c rest heq
      by_cases hc1 : c = lbraceChar
      · exact ⟨rest, Or.inl (by rw [heq, hc1])⟩
      · rw [if_neg hc1] at h
        by_cases hc2 : c = '['
        · exact ⟨rest, Or.inr (by rw [heq, hc2])⟩
        · rw [if_neg hc2] at h
          exfalso
          split at h
          · rename_i hc3
            rcases Option.map_eq_some'.mp h with ⟨p, hp, hpe⟩
            rcases hv with ⟨kvs, hk⟩ | ⟨its, hk⟩ <;>
              (rw [hk] at hpe; exact Jx.noConfusion (congrArg Prod.fst hpe).symm)
          · split at h
            · split at h
              all_goals first
                | (injection h with h2
                   rcases hv with ⟨kvs, hk⟩ | ⟨its, hk⟩ <;>
                     (rw [hk] at h2; exact Jx.noConfusion (congrArg Prod.fst h2).symm))
                | (exact absurd h (by simp))
            · split at h
              · split at h
                all_goals first
                  | (injection h with h2
                     rcases hv with ⟨kvs, hk⟩ | ⟨its, hk⟩ <;>
                       (rw [hk] at h2; exact Jx.noConfusion (congrArg Prod.fst h2).symm))
                  | (exact absurd h (by simp))
              · split at h
                · split at h
                  all_goals first
                    | (injection h with h2
                       rcases hv with ⟨kvs, hk⟩ | ⟨its, hk⟩ <;>
                         (rw [hk] at h2; exact Jx.noConfusion (congrArg Prod.fst h2).symm))
                    | (exact absurd h (by simp))
                · split at h
                  · rcases Option.map_eq_some'.mp h with ⟨p, hp, hpe⟩
                    rcases hv with ⟨kvs, hk⟩ | ⟨its, hk⟩ <;>
                      (rw [hk] at hpe; exact Jx.noConfusion (congrArg Prod.fst hpe).symm)
                  · exact absurd h (by simp)

theorem isRpcPayload_obj_or_arr (v : Jx) (h : isRpcPayload v = true) :
    (∃ kvs, v = Jx.obj kvs) ∨ (∃ its, v = Jx.arr its) := by
  cases v with
  | obj kvs => exact Or.inl ⟨kvs, rfl⟩
  | arr its => exact Or.inr ⟨its, rfl⟩
  | null => exact absurd h (by simp [isRpcPayload, isRpcRequest])
  | bool b => exact absurd h (by simp [isRpcPayload, isRpcRequest])
  | num n => exact absurd h (by simp [isRpcPayload, isRpcRequest])
  | str s => exact absurd h (by simp [isRpcPayload, isRpcRequest])

theorem skipWs_subset (l : List Char) : skipWs l ⊆ l := by
  induction l with
  | nil => exact fun x hx => hx
  | cons c rest ih =>
    unfold skipWs
    split
    · exact fun x hx => List.mem_cons_of_mem c (ih hx)
    · exact fun x hx => hx

/-- A string whose characters include no opening brace/bracket cannot parse
to an accepted RPC payload. -/
theorem jsonParse_payload_has_open (cand : List Char) (v : Jx)
    (hp : jsonParse (String.mk cand) = some v) (hv : isRpcPayload v = true) :
    ∃ c, c ∈ cand ∧ (c = lbraceChar ∨ c = '[') := by
  unfold jsonParse at hp
  split at hp
  · rename_i w p heq
    have hvp : w = v := by
      split at hp
      · injection hp
      · exact absurd hp (by simp)
    rw [hvp] at heq
    rcases parseVal_open_head _ _ _ _ heq (isRpcPayload_obj_or_arr v hv)
      with ⟨t, ht | ht⟩
    · refine ⟨lbraceChar, ?_, Or.inl rfl⟩
      have hmem : lbraceChar ∈ skipWs (String.mk cand).toList := by
        rw [ht]; exact List.mem_cons_self _ _
      exact skipWs_subset _ hmem
    · refine ⟨'[', ?_, Or.inr rfl⟩
      have hmem : '[' ∈ skipWs (String.mk cand).toList := by
        rw [ht]; exact List.mem_cons_self _ _
      exact skipWs_subset _ hmem
  · exact absurd hp (by simp)

theorem jsTrimL_subset (l : List Char) : jsTrimL l ⊆ l := by
  intro x hx
  unfold jsTrimL at hx
  rw [List.mem_reverse] at hx
  have h2 := (List.dropWhile_sublist jsWsChar).subset hx
  rw [List.mem_reverse] at h2
  exact (List.dropWhile_sublist jsWsChar).subset h2

/-- If the decoded buffer contains no opening brace/bracket, the bare-JSON
heuristic rejects it. -/
theorem tryReadBareJsonRequest_none (buffer : List Nat)
    (hno : ∀ c ∈ utf8DecodeLossy buffer, c ≠ lbraceChar ∧ c ≠ '[') :
    tryReadBareJsonRequest buffer = none := by
  unfold tryReadBareJsonRequest
  simp only []
  have hcand : ∀ (cand : List Char) (consumed : Nat), cand ⊆ utf8DecodeLossy buffer →
      (match jsonParse (String.mk cand) with
        | some v => if isRpcPayload v then some (v, consumed) else none
        | none => none) = (none : Option (Jx × Nat)) := by
    intro cand consumed hsub
    split
    · rename_i v hpv
      split
      · rename_i hpl
        exfalso
        rcases jsonParse_payload_has_open cand v hpv hpl with ⟨c, hc, hcc⟩
        have := hno c (hsub hc)
        rcases hcc with rfl | rfl
        · exact this.1 rfl
        · exact this.2 rfl
      · rfl
    · rfl
  split
  · rfl
  · rw [hcand (jsTrimL (utf8DecodeLossy buffer)) _ (jsTrimL_subset _)]
    have hm : ∀ (X : Option (Jx × Nat)),
        (match (none : Option (Jx × Nat)) with | some r => some r | none => X) = X :=
      fun X => rfl
    rw [hm]
    split
    · split
      · have hsub : jsTrimL (List.takeWhile (fun c => !(c == '\n')) (utf8DecodeLossy buffer))
            ⊆ utf8DecodeLossy buffer := by
          intro x hx
          exact (List.takeWhile_sublist _).subset (jsTrimL_subset _ hx)
        rw [hcand _ _ hsub]
      · rfl
    · rfl

/-! ### Header block facts -/

theorem eolChars_map (crlf : Bool) :
    (eolChars crlf).map Char.toNat = eolBytes crlf := by
  cases crlf <;> rfl

theorem map_joinLines (eol : List Char) (ls : List (List Char)) :
    (joinLines eol ls).map Char.toNat
      = joinBytes (eol.map Char.toNat) (ls.map (fun l => l.map Char.toNat)) := by
  induction ls with
  | nil => rfl
  | cons l ls ih =>
    cases ls with
    | nil => rfl
    | cons l2 ls2 =>
      simp only [joinLines, joinBytes, List.map_cons, List.map_append]
      rw [ih]
      simp only [List.map_cons]

theorem mem_joinLines (eol : List Char) (ls : List (List Char)) (c : Char)
    (h : c ∈ joinLines eol ls) : (∃ l, l ∈ ls ∧ c ∈ l) ∨ c ∈ eol := by
  induction ls with
  | nil => exact absurd h (by simp [joinLines])
  | cons l ls ih =>
    cases ls with
    | nil => exact Or.inl ⟨l, List.mem_cons_self l [], h⟩
    | cons l2 ls2 =>
      simp only [joinLines] at h
      rcases List.mem_append.mp h with h1 | h2
      · exact Or.inl ⟨l, List.mem_cons_self _ _, h1⟩
      · rcases List.mem_append.mp h2 with h3 | h4
        · exact Or.inr h3
        · rcases ih h4 with ⟨l3, hl3, hc⟩ | he
          · exact Or.inl ⟨l3, List.mem_cons_of_mem l hl3, hc⟩
          · exact Or.inr he

theorem headerText_char_ok (f : FramedRequest) (hv : ValidFrame f) :
    ∀ c ∈ frameHeaderText f, c.toNat < 128 ∧ c ≠ lbraceChar ∧ c ≠ '[' := by
  intro c hc
  rcases mem_joinLines _ _ c hc with ⟨l, hl, hcl⟩ | he
  · have := (hv.2.1 l hl).2 c hcl
    exact ⟨this.1, this.2.2.2.1, this.2.2.2.2⟩
  · cases hcrlf : f.crlf
    · rw [hcrlf] at he
      have hcn : c = '\n' := by simpa [eolChars] using he
      subst hcn
      exact ⟨by decide, by decide, by decide⟩
    · rw [hcrlf] at he
      have hcn : c = '\r' ∨ c = '\n' := by simpa [eolChars] using he
      rcases hcn with rfl | rfl
      · exact ⟨by decide, by decide, by decide⟩
      · exact ⟨by decide, by decide, by decide⟩

theorem frameHeaderBytes_eq (f : FramedRequest) :
    frameHeaderBytes f
      = joinBytes (eolBytes f.crlf) (f.headerLines.map (fun l => l.map Char.toNat)) := by
  unfold frameHeaderBytes frameHeaderText
  rw [map_joinLines, eolChars_map]

theorem headerBytes_lines_ok (f : FramedRequest) (hv : ValidFrame f) :
    ∀ l ∈ f.headerLines.map (fun l => l.map Char.toNat),
      l ≠ [] ∧ ∀ b ∈ l, b ≠ 13 ∧ b ≠ 10 := by
  intro l hl
  rcases List.mem_map.mp hl with ⟨line, hline, rfl⟩
  have hok := hv.2.1 line hline
  constructor
  · intro hnil
    exact hok.1 (List.map_eq_nil_iff.mp hnil)
  · intro b hb
    rcases List.mem_map.mp hb with ⟨c, hc, rfl⟩
    have hcc := hok.2 c hc
    constructor
    · intro h13
      have hcr : c = '\r' := by
        have h2 := congrArg Char.ofNat h13
        rw [Char.ofNat_toNat] at h2
        rw [h2]
      exact hcc.2.1 hcr
    · intro h10
      have hcn : c = '\n' := by
        have h2 := congrArg Char.ofNat h10
        rw [Char.ofNat_toNat] at h2
        rw [h2]
      exact hcc.2.2.1 hcn

theorem charToNat_ofNat_ascii (n : Nat) (h : n < 128) : (Char.ofNat n).toNat = n := by
  unfold Char.ofNat
  rw [dif_pos (Or.inl (by omega : n < 0xD800))]
  simp only [Char.ofNatAux, Char.toNat]
  rfl

theorem frame_no_sep_low (f : FramedRequest) (hv : ValidFrame f) (rest : List Nat)
    (k : Nat) (hk : k < (frameHeaderBytes f).length) :
    sepMatchLenAt ((frameHeaderBytes f ++ rest).drop k) = none := by
  rw [frameHeaderBytes_eq] at hk ⊢
  refine joinBytes_no_sep (eolBytes f.crlf) ?_ _ (headerBytes_lines_ok f hv) rest k hk
  cases f.crlf
  · exact Or.inl rfl
  · exact Or.inr rfl

theorem frame_take_no_sep_low (f : FramedRequest) (hv : ValidFrame f) (t k : Nat)
    (hk : k < (frameHeaderBytes f).length) :
    sepMatchLenAt (((frameBytes f).take t).drop k) = none := by
  cases hm : sepMatchLenAt (((frameBytes f).take t).drop k) with
  | none => rfl
  | some L =>
    exfalso
    rw [List.drop_take] at hm
    have h2 := sepMatchLenAt_append _ (((frameBytes f).drop k).drop (t - k)) L hm
    rw [List.take_append_drop] at h2
    have h3 : sepMatchLenAt ((frameBytes f).drop k) = none := by
      unfold frameBytes
      rw [List.append_assoc]
      exact frame_no_sep_low f hv _ k hk
    rw [h2] at h3
    exact Option.noConfusion h3

theorem frame_take_no_sep_high (f : FramedRequest) (hv : ValidFrame f) (t k : Nat)
    (ht : t < (frameHeaderBytes f).length + (frameSepBytes f).length)
    (hk : (frameHeaderBytes f).length ≤ k) :
    sepMatchLenAt (((frameBytes f).take t).drop k) = none := by
  by_cases hkt : t ≤ k
  · have hlen : ((frameBytes f).take t).length ≤ k := by
      rw [List.length_take]
      omega
    rw [List.drop_eq_nil_of_le hlen]
    rfl
  · push_neg at hkt
    rw [List.drop_take]
    have hframe : (frameBytes f).drop k
        = (frameSepBytes f).drop (k - (frameHeaderBytes f).length)
            ++ utf8Encode f.bodyText := by
      unfold frameBytes
      rw [List.append_assoc, List.drop_append_eq_append_drop,
        List.drop_eq_nil_of_le hk, List.nil_append, List.drop_append_eq_append_drop]
      have hz : k - (frameHeaderBytes f).length - (frameSepBytes f).length = 0 := by omega
      rw [hz, List.drop_zero]
    rw [hframe]
    rw [List.take_append_of_le_length (by rw [List.length_drop]; omega)]
    cases hcrlf : f.crlf
    · have hS : frameSepBytes f = [10, 10] := by
        unfold frameSepBytes eolBytes
        rw [hcrlf]
        rfl
      have hab : (k - (frameHeaderBytes f).length) + (t - k) < 2 := by
        rw [hS] at ht
        simp only [List.length_cons, List.length_nil] at ht
        omega
      rw [hS]
      set a := k - (frameHeaderBytes f).length with ha
      set b := t - k with hb
      have ha2 : a < 2 := by omega
      have hb2 : b < 2 := by omega
      interval_cases a <;> interval_cases b <;> first | rfl | omega
    · have hS : frameSepBytes f = [13, 10, 13, 10] := by
        unfold frameSepBytes eolBytes
        rw [hcrlf]
        rfl
      have hab : (k - (frameHeaderBytes f).length) + (t - k) < 4 := by
        rw [hS] at ht
        simp only [List.length_cons, List.length_nil] at ht
        omega
      rw [hS]
      set a := k - (frameHeaderBytes f).length with ha
      set b := t - k with hb
      have ha2 : a < 4 := by omega
      have hb2 : b < 4 := by omega
      interval_cases a <;> interval_cases b <;> first | rfl | omega

theorem frame_take_sep_none (f : FramedRequest) (hv : ValidFrame f) (t : Nat)
    (ht : t < (frameHeaderBytes f).length + (frameSepBytes f).length) :
    findHeaderSeparator ((frameBytes f).take t) = none := by
  refine findHeaderSeparator_eq_none _ (fun k => ?_)
  by_cases hk : k < (frameHeaderBytes f).length
  · exact frame_take_no_sep_low f hv t k hk
  · exact frame_take_no_sep_high f hv t k ht (le_of_not_lt hk)

theorem sepMatchLenAt_lf2 (x : List Nat) : sepMatchLenAt (10 :: 10 :: x) = some 2 := rfl

theorem sepMatchLenAt_crlf4 (x : List Nat) :
    sepMatchLenAt (13 :: 10 :: 13 :: 10 :: x) = some 4 := rfl

theorem frame_take_sep_some (f : FramedRequest) (hv : ValidFrame f) (t : Nat)
    (ht : (frameHeaderBytes f).length + (frameSepBytes f).length ≤ t) :
    findHeaderSeparator ((frameBytes f).take t)
      = some ((frameHeaderBytes f).length, (frameSepBytes f).length) := by
  have hd : ((frameBytes f).take t).drop (frameHeaderBytes f).length
      = frameSepBytes f ++ (utf8Encode f.bodyText).take
          (t - (frameHeaderBytes f).length - (frameSepBytes f).length) := by
    rw [List.drop_take]
    have h1 : (frameBytes f).drop (frameHeaderBytes f).length
        = frameSepBytes f ++ utf8Encode f.bodyText := by
      unfold frameBytes
      rw [List.append_assoc, List.drop_left]
    rw [h1, List.take_append_eq_append_take, List.take_of_length_le (by omega)]
  cases hcrlf : f.crlf
  · have hS : frameSepBytes f = [10, 10] := by
      unfold frameSepBytes eolBytes
      rw [hcrlf]
      rfl
    have hmatch : sepMatchLenAt (((frameBytes f).take t).drop (frameHeaderBytes f).length)
        = some 2 := by
      rw [hd, hS]
      exact sepMatchLenAt_lf2 _
    have hfind := findHeaderSeparator_eq_some _ _ 2 hmatch
      (fun k hk => frame_take_no_sep_low f hv t k hk)
    rw [hfind, hS]
    rfl
  · have hS : frameSepBytes f = [13, 10, 13, 10] := by
      unfold frameSepBytes eolBytes
      rw [hcrlf]
      rfl
    have hmatch : sepMatchLenAt (((frameBytes f).take t).drop (frameHeaderBytes f).length)
        = some 4 := by
      rw [hd, hS]
      exact sepMatchLenAt_crlf4 _
    have hfind := findHeaderSeparator_eq_some _ _ 4 hmatch
      (fun k hk => frame_take_no_sep_low f hv t k hk)
    rw [hfind, hS]
    rfl

theorem frame_take_bytes_props (f : FramedRequest) (hv : ValidFrame f) (t : Nat)
    (ht : t ≤ (frameHeaderBytes f).length + (frameSepBytes f).length) :
    ∀ b ∈ (frameBytes f).take t, b < 128 ∧ Char.ofNat b ≠ lbraceChar ∧ Char.ofNat b ≠ '[' := by
  intro b hb
  have hsub : b ∈ frameHeaderBytes f ++ frameSepBytes f := by
    have h1 : (frameBytes f).take t = (frameHeaderBytes f ++ frameSepBytes f).take t := by
      unfold frameBytes
      exact List.take_append_of_le_length (by rw [List.length_append]; omega)
    rw [h1] at hb
    exact (List.take_sublist _ _).subset hb
  rcases List.mem_append.mp hsub with hH | hS
  · unfold frameHeaderBytes at hH
    rcases List.mem_map.mp hH with ⟨c, hc, rfl⟩
    have hok := headerText_char_ok f hv c hc
    rw [Char.ofNat_toNat]
    exact ⟨hok.1, hok.2.1, hok.2.2⟩
  · have hb10 : b = 10 ∨ b = 13 := by
      cases hcrlf : f.crlf
      · unfold frameSepBytes eolBytes at hS
        rw [hcrlf] at hS
        simp at hS
        exact Or.inl hS
      · unfold frameSepBytes eolBytes at hS
        rw [hcrlf] at hS
        simp at hS
        tauto
    rcases hb10 with rfl | rfl
    · exact ⟨by omega, by decide, by decide⟩
    · exact ⟨by omega, by decide, by decide⟩

theorem frame_take_decode_no_open (f : FramedRequest) (hv : ValidFrame f) (t : Nat)
    (ht : t ≤ (frameHeaderBytes f).length + (frameSepBytes f).length) :
    ∀ c ∈ utf8DecodeLossy ((frameBytes f).take t), c ≠ lbraceChar ∧ c ≠ '[' := by
  intro c hc
  have hprops := frame_take_bytes_props f hv t ht
  rw [utf8DecodeLossy_ascii _ (fun b hb => (hprops b hb).1)] at hc
  rcases List.mem_map.mp hc with ⟨b, hb, rfl⟩
  exact (hprops b hb).2

theorem frameBytes_length (f : FramedRequest) :
    (frameBytes f).length
      = (frameHeaderBytes f).length + (frameSepBytes f).length
          + (utf8Encode f.bodyText).length := by
  unfold frameBytes
  simp [List.length_append]
  omega

theorem frame_decode_header (f : FramedRequest) (hv : ValidFrame f) :
    utf8DecodeLossy ((frameBytes f).take (frameHeaderBytes f).length)
      = frameHeaderText f := by
  have h1 : (frameBytes f).take (frameHeaderBytes f).length = frameHeaderBytes f := by
    unfold frameBytes
    rw [List.append_assoc]
    exact List.take_left _ _
  rw [h1]
  unfold frameHeaderBytes
  exact utf8DecodeLossy_map_toNat _ (fun c hc => (headerText_char_ok f hv c hc).1)

theorem drainStep_prefix_small (f : FramedRequest) (hv : ValidFrame f) (t : Nat)
    (ht : t < (frameHeaderBytes f).length + (frameSepBytes f).length) :
    drainStep ((frameBytes f).take t) = DrainStep.stop := by
  unfold drainStep
  rw [frame_take_sep_none f hv t ht,
    tryReadBareJsonRequest_none _ (frame_take_decode_no_open f hv t (le_of_lt ht))]

theorem drainStep_prefix_mid (f : FramedRequest) (hv : ValidFrame f) (t : Nat)
    (ht1 : (frameHeaderBytes f).length + (frameSepBytes f).length ≤ t)
    (ht2 : t < (frameBytes f).length) :
    drainStep ((frameBytes f).take t) = DrainStep.stop := by
  have hsep := frame_take_sep_some f hv t ht1
  have hdec : utf8DecodeLossy (((frameBytes f).take t).take (frameHeaderBytes f).length)
      = frameHeaderText f := by
    rw [List.take_take,
      show min (frameHeaderBytes f).length t = (frameHeaderBytes f).length from by omega]
    exact frame_decode_header f hv
  have hlen := frameBytes_length f
  simp only [drainStep, hsep, hdec, hv.2.2]
  rw [if_pos]
  rw [List.length_take]
  omega

theorem drainStep_full (f : FramedRequest) (hv : ValidFrame f) (p : Jx)
    (hparse : jsonParse f.bodyText = some p) :
    drainStep (frameBytes f) = DrainStep.payload [] p RpcTransportMode.framed := by
  have hlen := frameBytes_length f
  have hsep : findHeaderSeparator (frameBytes f)
      = some ((frameHeaderBytes f).length, (frameSepBytes f).length) := by
    have h := frame_take_sep_some f hv (frameBytes f).length (by omega)
    rwa [List.take_length] at h
  have hdec := frame_decode_header f hv
  have hbody : ((frameBytes f).take ((frameHeaderBytes f).length + (frameSepBytes f).length
        + (utf8Encode f.bodyText).length)).drop
        ((frameHeaderBytes f).length + (frameSepBytes f).length)
      = utf8Encode f.bodyText := by
    rw [← hlen, List.take_length]
    unfold frameBytes
    have h2 : (frameHeaderBytes f ++ frameSepBytes f ++ utf8Encode f.bodyText).drop
        ((frameHeaderBytes f ++ frameSepBytes f).length) = utf8Encode f.bodyText :=
      List.drop_left _ _
    rwa [List.length_append] at h2
  have hdrop : (frameBytes f).drop ((frameHeaderBytes f).length + (frameSepBytes f).length
      + (utf8Encode f.bodyText).length) = [] := by
    rw [← hlen]
    exact List.drop_length _
  simp only [drainStep, hsep, hdec, hv.2.2]
  rw [if_neg (by omega), hbody, utf8DecodeLossy_utf8Encode]
  have hstr : String.mk f.bodyText.toList = f.bodyText := rfl
  rw [hstr, hparse, hdrop]

theorem drainLoop_nil (fuel : Nat) : drainLoop fuel [] = ([], []) := by
  cases fuel <;> rfl

theorem drainInputBuffer_take_lt (f : FramedRequest) (hv : ValidFrame f)
    (t : Nat) (ht : t < (frameBytes f).length) :
    drainInputBuffer ((frameBytes f).take t) = ((frameBytes f).take t, []) := by
  have hstep : drainStep ((frameBytes f).take t) = DrainStep.stop := by
    by_cases hcase : t < (frameHeaderBytes f).length + (frameSepBytes f).length
    · exact drainStep_prefix_small f hv t hcase
    · exact drainStep_prefix_mid f hv t (le_of_not_lt hcase) ht
  unfold drainInputBuffer
  unfold drainLoop
  rw [hstep]

theorem drainInputBuffer_full (f : FramedRequest) (hv : ValidFrame f) (p : Jx)
    (hparse : jsonParse f.bodyText = some p) :
    drainInputBuffer (frameBytes f) = ([], [(p, RpcTransportMode.framed)]) := by
  unfold drainInputBuffer
  unfold drainLoop
  rw [drainStep_full f hv p hparse]
  simp only [drainLoop_nil]

theorem feed_phase2 (chunks : List (List Nat)) (hfl : chunks.flatten = [])
    (outs : List (Jx × RpcTransportMode)) :
    chunks.foldl feedStep ([], outs) = ([], outs) := by
  induction chunks generalizing outs with
  | nil => rfl
  | cons c cs ih =>
    rw [List.flatten_cons] at hfl
    have hc : c = [] := (List.append_eq_nil.mp hfl).1
    subst hc
    rw [List.foldl_cons]
    have hstep : feedStep ([], outs) [] = ([], outs) := by
      unfold feedStep
      simp [show drainInputBuffer [] = ([], []) from rfl]
    rw [hstep]
    exact ih (List.append_eq_nil.mp hfl).2 outs

theorem feed_phase1 (f : FramedRequest) (hv : ValidFrame f) (p : Jx)
    (hparse : jsonParse f.bodyText = some p) :
    ∀ (chunks : List (List Nat)) (k : Nat) (outs : List (Jx × RpcTransportMode)),
      k < (frameBytes f).length →
      (frameBytes f).drop k = chunks.flatten →
      chunks.foldl feedStep ((frameBytes f).take k, outs)
        = ([], outs ++ [(p, RpcTransportMode.framed)]) := by
  intro chunks
  induction chunks with
  | nil =>
    intro k outs hk hfl
    exfalso
    rw [List.flatten_nil] at hfl
    have hl := congrArg List.length hfl
    rw [List.length_drop] at hl
    simp only [List.length_nil] at hl
    omega
  | cons c cs ih =>
    intro k outs hk hfl
    rw [List.foldl_cons]
    have hc : c = ((frameBytes f).drop k).take c.length := by
      rw [hfl, List.flatten_cons]
      exact (List.take_left c cs.flatten).symm
    have hbuf : (frameBytes f).take k ++ c = (frameBytes f).take (k + c.length) := by
      rw [List.take_add]
      rw [← hc]
    have hrest : (frameBytes f).drop (k + c.length) = cs.flatten := by
      rw [← List.drop_drop, hfl, List.flatten_cons, List.drop_left]
    by_cases hk2 : k + c.length < (frameBytes f).length
    · have hdrain := drainInputBuffer_take_lt f hv (k + c.length) hk2
      have hstep : feedStep ((frameBytes f).take k, outs) c
          = ((frameBytes f).take (k + c.length), outs) := by
        unfold feedStep
        rw [show ((frameBytes f).take k, outs).1 = (frameBytes f).take k from rfl,
          hbuf, hdrain]
        simp
      rw [hstep]
      exact ih (k + c.length) outs hk2 hrest
    · have hlenle : c.length ≤ ((frameBytes f).drop k).length := by
        rw [hfl, List.flatten_cons, List.length_append]
        omega
      rw [List.length_drop] at hlenle
      have hkfull : k + c.length = (frameBytes f).length := by omega
      have hbuf2 : (frameBytes f).take k ++ c = frameBytes f := by
        rw [hbuf, hkfull, List.take_length]
      have hstep : feedStep ((frameBytes f).take k, outs) c
          = ([], outs ++ [(p, RpcTransportMode.framed)]) := by
        unfold feedStep
        rw [show ((frameBytes f).take k, outs).1 = (frameBytes f).take k from rfl,
          hbuf2, drainInputBuffer_full f hv p hparse]
      rw [hstep]
      apply feed_phase2
      have hfl2 : cs.flatten.length = 0 := by
        have hl := congrArg List.length hrest
        rw [List.length_drop, hkfull] at hl
        omega
      exact List.length_eq_zero.mp hfl2

theorem frameBytes_length_pos (f : FramedRequest) : 0 < (frameBytes f).length := by
  rw [frameBytes_length]
  have h2 : 2 ≤ (frameSepBytes f).length := by
    unfold frameSepBytes eolBytes
    cases f.crlf <;> simp
  omega

/-- C1 (amended): for every framed request with uniform LF or CRLF line
endings whose header lines are nonempty ASCII text free of opening
braces/brackets (standard `Name: value` headers), whose first
Content-Length header counts the UTF-8 bytes of the body, and whose body
parses as JSON, every way of splitting its byte sequence into chunks makes
the drain loop consume the whole buffer and hand exactly one payload — the
parsed body, in framed mode — to dispatch: no chunk boundary drops,
duplicates, or diverts such a request to the bare-JSON heuristic.  The
header hypotheses are necessary: outside them the property fails in the
source (see the C1 counterexample — a header line that itself parses as an
RPC object is hijacked by the bare-JSON heuristic at a chunk boundary; and
non-ASCII header text misaligns the body slice, because the code slices
the byte buffer with the decoded text's character index). -/
theorem C1_chunked_framing (f : FramedRequest) (p : Jx) (chunks : List (List Nat))
    (hvalid : ValidFrame f)
    (hparse : jsonParse f.bodyText = some p)
    (hchunks : chunks.flatten = frameBytes f) :
    feedChunks chunks = ([], [(p, RpcTransportMode.framed)]) := by
  unfold feedChunks
  have h := feed_phase1 f hvalid p hparse chunks 0 []
    (frameBytes_length_pos f) (by rw [List.drop_zero, hchunks])
  rw [List.take_zero] at h
  rw [h]
  rfl

/-- A concrete CRLF-framed `\x7b\x7d` request used to witness C1. -/
def c1Frame : FramedRequest :=
  ⟨[("Content-Length: 2").toList], true, "\x7b\x7d"⟩

/-- A chunk split of `c1Frame`'s bytes: mid-header, mid-separator, final
body byte. -/
def c1Chunks : List (List Nat) :=
  [(frameBytes c1Frame).take 9, ((frameBytes c1Frame).drop 9).take 13,
    (frameBytes c1Frame).drop 22]

/-- C1 witness: the concrete frame is valid, its body parses, the chunks
partition its bytes, and feeding them yields exactly the one framed
payload. -/
theorem C1_chunked_framing_witness :
    ValidFrame c1Frame ∧ jsonParse c1Frame.bodyText = some (Jx.obj [])
      ∧ c1Chunks.flatten = frameBytes c1Frame
      ∧ feedChunks c1Chunks = ([], [(Jx.obj [], RpcTransportMode.framed)]) :=
  ⟨by unfold ValidFrame HeaderLineOk; decide, rfl, by decide,
    C1_chunked_framing c1Frame (Jx.obj []) c1Chunks
      (by unfold ValidFrame HeaderLineOk; decide) rfl (by decide)⟩

/-! ## C2: batch validation -/

theorem drainInputBuffer_of_stop (buffer : List Nat)
    (h : drainStep buffer = DrainStep.stop) :
    drainInputBuffer buffer = (buffer, []) := by
  unfold drainInputBuffer drainLoop
  rw [h]

theorem tryReadBareJsonRequest_none_of_fail (buffer : List Nat)
    (hwhole : ∀ v, jsonParse (String.mk (jsTrimL (utf8DecodeLossy buffer))) = some v →
      isRpcPayload v = false)
    (hline : ∀ v, jsonParse (String.mk (jsTrimL
        ((utf8DecodeLossy buffer).takeWhile (fun c => !(c == '\n'))))) = some v →
      isRpcPayload v = false) :
    tryReadBareJsonRequest buffer = none := by
  have hcand : ∀ (cand : List Char) (consumed : Nat),
      (∀ v, jsonParse (String.mk cand) = some v → isRpcPayload v = false) →
      (match jsonParse (String.mk cand) with
        | some v => if isRpcPayload v then some (v, consumed) else none
        | none => none) = (none : Option (Jx × Nat)) := by
    intro cand consumed hfail
    split
    · rename_i v hv
      rw [hfail v hv]
      simp
    · rfl
  unfold tryReadBareJsonRequest
  simp only []
  split
  · rfl
  · rw [hcand _ _ hwhole]
    have hm : ∀ (X : Option (Jx × Nat)),
        (match (none : Option (Jx × Nat)) with | some r => some r | none => X) = X :=
      fun X => rfl
    rw [hm]
    split
    · split
      · rw [hcand _ _ hline]
      · rfl
    · rfl

theorem handleRequest_some (env : CollabEnv) (cfg : AppConfig) (now : Int)
    (db : SessionDb) (request : Jx)
    (hnull : request ≠ Jx.null)
    (hnotif : reqGet request "method" ≠ some (Jx.str "notifications/initialized")) :
    ∃ resp db2, handleRequest env cfg now db request = Except.ok (some resp, db2) := by
  cases request with
  | null => exact absurd rfl hnull
  | obj kvs =>
    rcases handleRequest_gives_id env cfg now db kvs hnotif with ⟨resp, db2, h1, h2⟩
    exact ⟨resp, db2, h1⟩
  | bool b =>
    exact ⟨⟨Jx.null, none, some ⟨-32601, "Method not found: " ++ jsTemplateDisplay none⟩⟩,
      db, rfl⟩
  | num n =>
    exact ⟨⟨Jx.null, none, some ⟨-32601, "Method not found: " ++ jsTemplateDisplay none⟩⟩,
      db, rfl⟩
  | str s =>
    exact ⟨⟨Jx.null, none, some ⟨-32601, "Method not found: " ++ jsTemplateDisplay none⟩⟩,
      db, rfl⟩
  | arr items =>
    exact ⟨⟨Jx.null, none, some ⟨-32601, "Method not found: " ++ jsTemplateDisplay none⟩⟩,
      db, rfl⟩

theorem processRequests_total (env : CollabEnv) (cfg : AppConfig) (now : Int) :
    ∀ (items : List Jx) (db : SessionDb) (acc : List RpcResponse),
      (∀ it ∈ items, it ≠ Jx.null
        ∧ reqGet it "method" ≠ some (Jx.str "notifications/initialized")) →
      ∃ responses db2, processRequests env cfg now items db acc
          = Except.ok (acc.reverse ++ responses, db2)
        ∧ responses.length = items.length := by
  intro items
  induction items with
  | nil =>
    intro db acc h
    exact ⟨[], db, by simp [processRequests], rfl⟩
  | cons it rest ih =>
    intro db acc h
    have hit := h it (List.mem_cons_self _ _)
    rcases handleRequest_some env cfg now db it hit.1 hit.2 with ⟨r, db2, hr⟩
    rcases ih db2 (r :: acc) (fun x hx => h x (List.mem_cons_of_mem _ hx))
      with ⟨rs, db3, hp, hlen⟩
    refine ⟨r :: rs, db3, ?_, by simp [hlen]⟩
    unfold processRequests
    rw [hr]
    show processRequests env cfg now rest db2 (r :: acc)
      = Except.ok (acc.reverse ++ r :: rs, db3)
    rw [hp]
    simp

/-- C2 (amended): validation is asymmetric between the two wire formats.
Bare format: a buffer with no header separator whose whole-buffer and
first-line JSON candidates never satisfy `isRpcPayload` is not accepted —
the heuristic returns nothing, the drain loop consumes no byte and
dispatches nothing.  Framed format: the body is NOT validated with
`isRpcPayload`; every batch element that is not JSON `null` and not a
`notifications/initialized` notification — malformed elements included —
is dispatched individually and answered (malformed ones with a `-32601`
error response), rather than the payload being rejected whole. -/
theorem C2_batch_validation (buffer : List Nat)
    (env : CollabEnv) (cfg : AppConfig) (now : Int)
    (items : List Jx) (db : SessionDb)
    (hsep : findHeaderSeparator buffer = none)
    (hwhole : ∀ v, jsonParse (String.mk (jsTrimL (utf8DecodeLossy buffer))) = some v →
      isRpcPayload v = false)
    (hline : ∀ v, jsonParse (String.mk (jsTrimL
        ((utf8DecodeLossy buffer).takeWhile (fun c => !(c == '\n'))))) = some v →
      isRpcPayload v = false)
    (hitems : ∀ it ∈ items, it ≠ Jx.null
      ∧ reqGet it "method" ≠ some (Jx.str "notifications/initialized")) :
    tryReadBareJsonRequest buffer = none
      ∧ drainInputBuffer buffer = (buffer, [])
      ∧ ∃ responses db2,
          processRequests env cfg now (toRequests (Jx.arr items)) db []
            = Except.ok (responses, db2) ∧ responses.length = items.length := by
  have hbare := tryReadBareJsonRequest_none_of_fail buffer hwhole hline
  refine ⟨hbare, ?_, ?_⟩
  · refine drainInputBuffer_of_stop buffer ?_
    unfold drainStep
    rw [hsep, hbare]
  · rcases processRequests_total env cfg now items db [] hitems with ⟨rs, db2, hp, hlen⟩
    exact ⟨rs, db2, by simpa using hp, hlen⟩

/-- The malformed batch: the first element is a well-formed request with an
unknown method, the second lacks both `jsonrpc` and `method`. -/
def c2Payload : Jx :=
  Jx.arr [Jx.obj [("jsonrpc", Jx.str "2.0"), ("id", Jx.num 1), ("method", Jx.str "nosuch")],
    Jx.obj [("bad", Jx.bool true)]]

/-- The JSON text of `c2Payload`. -/
def c2Body : String :=
  "[\x7b\"jsonrpc\":\"2.0\",\"id\":1,\"method\":\"nosuch\"\x7d,\x7b\"bad\":true\x7d]"

/-- `c2Body` framed with a correct Content-Length header. -/
def c2Frame : FramedRequest :=
  ⟨[("Content-Length: " ++ String.mk (natToDecimalL (utf8Encode c2Body).length)).toList],
    true, c2Body⟩

/-- A bare buffer whose JSON is an object that is not an RPC request. -/
def c2BareBuffer : List Nat := utf8Encode "\x7b\"bad\":true\x7d\n"

/-- C2 witness: on the bare side, the non-payload object is left buffered
and undispatched; on the framed side, both elements of the malformed batch
are dispatched and answered. -/
theorem C2_batch_validation_witness :
    findHeaderSeparator c2BareBuffer = none
      ∧ tryReadBareJsonRequest c2BareBuffer = none
      ∧ drainInputBuffer c2BareBuffer = (c2BareBuffer, [])
      ∧ ∃ responses db2,
          processRequests demoEnv (demoConfig 5) 0 (toRequests c2Payload) emptyDb []
            = Except.ok (responses, db2) ∧ responses.length = 2 := by
  have hitems : ∀ it ∈ [Jx.obj [("jsonrpc", Jx.str "2.0"), ("id", Jx.num 1),
      ("method", Jx.str "nosuch")], Jx.obj [("bad", Jx.bool true)]],
      it ≠ Jx.null ∧ reqGet it "method" ≠ some (Jx.str "notifications/initialized") := by
    intro it hit
    rcases List.mem_cons.mp hit with rfl | hit2
    · refine ⟨fun h => Jx.noConfusion h, fun h => ?_⟩
      injection Option.some.inj h with h2
      exact absurd h2 (by decide)
    · rcases List.mem_cons.mp hit2 with rfl | hit3
      · exact ⟨fun h => Jx.noConfusion h, fun h => Option.noConfusion h⟩
      · exact absurd hit3 (List.not_mem_nil _)
  have h := C2_batch_validation c2BareBuffer demoEnv (demoConfig 5) 0
    [Jx.obj [("jsonrpc", Jx.str "2.0"), ("id", Jx.num 1), ("method", Jx.str "nosuch")],
      Jx.obj [("bad", Jx.bool true)]] emptyDb
    (by decide)
    (fun v hv => by rw [← Option.some.inj hv]; rfl)
    (fun v hv => by rw [← Option.some.inj hv]; rfl)
    hitems
  exact ⟨by decide, h.1, h.2.1, h.2.2⟩

/-- C2 counterexample: a framed arrival of a batch containing a malformed
element.  The payload fails `isRpcPayload`, yet the framed path performs no
such validation: the drain loop hands the batch to dispatch and BOTH
elements are answered — the payload is not rejected as a parse failure and
its elements are dispatched. -/
theorem C2_counterexample :
    ValidFrame c2Frame
      ∧ jsonParse c2Frame.bodyText = some c2Payload
      ∧ isRpcPayload c2Payload = false
      ∧ drainInputBuffer (frameBytes c2Frame) = ([], [(c2Payload, RpcTransportMode.framed)])
      ∧ (match processRequests demoEnv (demoConfig 5) 0 (toRequests c2Payload) emptyDb [] with
          | Except.ok (responses, _) => responses.length
          | Except.error _ => 0) = 2 := by
  refine ⟨by unfold ValidFrame HeaderLineOk; decide, rfl, rfl, ?_, rfl⟩
  exact drainInputBuffer_full c2Frame (by unfold ValidFrame HeaderLineOk; decide)
    c2Payload rfl

/-! ## Model validation: the character-level separator scan of the source
agrees with the byte-level model on ASCII buffers -/

/-- The scanner the source actually runs: /\r?\n\r?\n/ anchored at the head
of the DECODED text. -/
def sepMatchLenAtC (l : List Char) : Option Nat :=
  match l with
  | [] => none
  | [_] => none
  | c1 :: c2 :: rest =>
    if c1 = '\r' then
      if c2 = '\n' then
        match rest with
        | [] => none
        | c3 :: rest2 =>
          if c3 = '\r' then
            match rest2 with
            | c4 :: _ => if c4 = '\n' then some 4 else none
            | [] => none
          else if c3 = '\n' then some 3
          else none
      else none
    else if c1 = '\n' then
      if c2 = '\r' then
        match rest with
        | c3 :: _ => if c3 = '\n' then some 3 else none
        | [] => none
      else if c2 = '\n' then some 2
      else none
    else none

/-- Leftmost match of /\r?\n\r?\n/ over the decoded text: the CHARACTER
index the source slices the byte buffer with, and the collapsed length. -/
def findHeaderSeparatorChars : List Char → Option (Nat × Nat)
  | [] => none
  | c :: rest =>
    match sepMatchLenAtC (c :: rest) with
    | some l => some (0, if l = 4 then 4 else 2)
    | none =>
      match findHeaderSeparatorChars rest with
      | some (i, l) => some (i + 1, l)
      | none => none

theorem ofNat_eq_ofNat_iff (b m : Nat) (hb : b < 128) (hm : m < 128) :
    (Char.ofNat b = Char.ofNat m) ↔ b = m := by
  constructor
  · intro h
    have h2 := congrArg Char.toNat h
    rwa [charToNat_ofNat_ascii b hb, charToNat_ofNat_ascii m hm] at h2
  · intro h
    rw [h]

theorem sepMatchLenAtC_map (l : List Nat) (h : ∀ b ∈ l, b < 128) :
    sepMatchLenAtC (l.map Char.ofNat) = sepMatchLenAt l := by
  rcases l with _ | ⟨b1, _ | ⟨b2, rest⟩⟩
  · rfl
  · rfl
  · have hb1 : b1 < 128 := h b1 (by simp)
    have hb2 : b2 < 128 := h b2 (by simp)
    have e1r : (Char.ofNat b1 = '\r') ↔ (b1 = 13) := by
      rw [show '\r' = Char.ofNat 13 from rfl]
      exact ofNat_eq_ofNat_iff b1 13 hb1 (by omega)
    have e1n : (Char.ofNat b1 = '\n') ↔ (b1 = 10) := by
      rw [show '\n' = Char.ofNat 10 from rfl]
      exact ofNat_eq_ofNat_iff b1 10 hb1 (by omega)
    have e2r : (Char.ofNat b2 = '\r') ↔ (b2 = 13) := by
      rw [show '\r' = Char.ofNat 13 from rfl]
      exact ofNat_eq_ofNat_iff b2 13 hb2 (by omega)
    have e2n : (Char.ofNat b2 = '\n') ↔ (b2 = 10) := by
      rw [show '\n' = Char.ofNat 10 from rfl]
      exact ofNat_eq_ofNat_iff b2 10 hb2 (by omega)
    rcases rest with _ | ⟨b3, rest2⟩
    · simp only [List.map_cons, List.map_nil, sepMatchLenAtC, sepMatchLenAt,
        e1r, e1n, e2r, e2n]
    · have hb3 : b3 < 128 := h b3 (by simp)
      have e3r : (Char.ofNat b3 = '\r') ↔ (b3 = 13) := by
        rw [show '\r' = Char.ofNat 13 from rfl]
        exact ofNat_eq_ofNat_iff b3 13 hb3 (by omega)
      have e3n : (Char.ofNat b3 = '\n') ↔ (b3 = 10) := by
        rw [show '\n' = Char.ofNat 10 from rfl]
        exact ofNat_eq_ofNat_iff b3 10 hb3 (by omega)
      rcases rest2 with _ | ⟨b4, tail⟩
      · simp only [List.map_cons, List.map_nil, sepMatchLenAtC, sepMatchLenAt,
          e1r, e1n, e2r, e2n, e3r, e3n]
      · have hb4 : b4 < 128 := h b4 (by simp)
        have e4n : (Char.ofNat b4 = '\n') ↔ (b4 = 10) := by
          rw [show '\n' = Char.ofNat 10 from rfl]
          exact ofNat_eq_ofNat_iff b4 10 hb4 (by omega)
        simp only [List.map_cons, sepMatchLenAtC, sepMatchLenAt,
          e1r, e1n, e2r, e2n, e3r, e3n, e4n]

theorem findHeaderSeparatorChars_map (l : List Nat) (h : ∀ b ∈ l, b < 128) :
    findHeaderSeparatorChars (l.map Char.ofNat) = findHeaderSeparator l := by
  induction l with
  | nil => rfl
  | cons b rest ih =>
    have hsep := sepMatchLenAtC_map (b :: rest) h
    rw [List.map_cons] at hsep
    have hrec := ih (fun x hx => h x (List.mem_cons_of_mem b hx))
    unfold findHeaderSeparatorChars findHeaderSeparator
    simp only [List.map_cons, hsep, hrec]

/-- On an ASCII buffer the character index the source computes equals the
byte index the model computes. -/
theorem findHeaderSeparator_chars_agree (l : List Nat) (h : ∀ b ∈ l, b < 128) :
    findHeaderSeparatorChars (utf8DecodeLossy l) = findHeaderSeparator l := by
  rw [utf8DecodeLossy_ascii l h, findHeaderSeparatorChars_map l h]

/-- A framed request matching the claim's syntactic description (header
block with a correct Content-Length, blank-line terminated, exact body)
whose FIRST header line happens to parse as a JSON-RPC request object. -/
def c1xFrame : FramedRequest :=
  ⟨[("\x7b\"jsonrpc\":\"2.0\",\"id\":7,\"method\":\"x\"\x7d").toList,
    ("Content-Length: 2").toList], false, "\x7b\x7d"⟩

/-- The first header line of `c1xFrame`, as the JSON value it parses to. -/
def c1xLine1 : Jx :=
  Jx.obj [("jsonrpc", Jx.str "2.0"), ("id", Jx.num 7), ("method", Jx.str "x")]

/-- `c1xFrame`'s bytes split right after the first header line's newline
(byte 38 of 59). -/
def c1xChunks : List (List Nat) :=
  [(frameBytes c1xFrame).take 38, (frameBytes c1xFrame).drop 38]

/-- C1 counterexample: `c1xFrame` satisfies the claim's syntactic
description — its header block is blank-line terminated and its
Content-Length counts the UTF-8 bytes of the body, which parses as JSON —
yet at this chunk boundary the bare-JSON heuristic consumes the first
header line as a line-delimited request before the rest of the frame
arrives: feeding the chunks dispatches TWO payloads (the hijacked header
line in bare mode, then the framed body), refuting "exactly one parsed
request once all bytes have arrived". -/
theorem C1_counterexample :
    findContentLength (frameHeaderText c1xFrame)
        = some (utf8Encode c1xFrame.bodyText).length
      ∧ jsonParse c1xFrame.bodyText = some (Jx.obj [])
      ∧ c1xChunks.flatten = frameBytes c1xFrame
      ∧ isRpcPayload c1xLine1 = true
      ∧ feedChunks c1xChunks
          = ([], [(c1xLine1, RpcTransportMode.jsonl),
              (Jx.obj [], RpcTransportMode.framed)]) :=
  ⟨by decide, rfl, by decide, rfl, rfl⟩
